import Mathlib

/-!
Shallow embedding of the MagMerge core (src/src/lib.rs): file discovery,
line normalization, and the streaming group combiner, together with proofs
of the specification claims.

File systems and I/O are modelled explicitly: a file is its byte content
plus flags saying whether opening fails and after how many successful line
reads a read error occurs; the output device is a configuration saying
whether creation fails and how many line writes succeed.  Bytes are `Nat`.
-/

namespace MagMerge

abbrev Byte := Nat

/-- Rust `u8::is_ascii_whitespace`: space, tab, newline, form feed, carriage return. -/
def isAsciiWhitespace (b : Byte) : Bool :=
  b == 32 || b == 9 || b == 10 || b == 12 || b == 13

/-- Source `is_whitespace_line`: every byte is ASCII whitespace. -/
def is_whitespace_line (line : List Byte) : Bool :=
  line.all isAsciiWhitespace

/-- Source `starts_with_hash`: the first non-whitespace byte is `#` (35). -/
def starts_with_hash : List Byte → Bool
  | [] => false
  | b :: rest => if isAsciiWhitespace b then starts_with_hash rest else b == 35

/-- Source `trim_line_end`: pop a trailing newline and, if then trailing, a
carriage return; otherwise pop a lone trailing carriage return. -/
def trim_line_end (buffer : List Byte) : List Byte :=
  if buffer.getLast? = some 10 then
    let b := buffer.dropLast
    if b.getLast? = some 13 then b.dropLast else b
  else if buffer.getLast? = some 13 then buffer.dropLast
  else buffer

/-- The sequence of raw chunks returned by successive `read_until(b'\n')`
calls: each chunk ends with the newline byte except possibly the last, and a
trailing empty chunk (EOF) yields no line. -/
def splitLinesGo (cur : List Byte) : List Byte → List (List Byte)
  | [] => if cur.isEmpty then [] else [cur]
  | b :: rest =>
    if b == 10 then (cur ++ [10]) :: splitLinesGo [] rest
    else splitLinesGo (cur ++ [b]) rest

def splitLines (bs : List Byte) : List (List Byte) :=
  splitLinesGo [] bs

/-- A modelled input file: its path, whether `File::open` fails, its byte
content, and optionally after how many successful `read_next_line` calls the
reader returns an error. -/
structure MFile where
  path : String
  failsOpen : Bool
  content : List Byte
  readErrAfter : Option Nat
deriving DecidableEq

/-- All normalized lines of the file content, as `read_next_line` yields them. -/
def rawLines (f : MFile) : List (List Byte) :=
  (splitLines f.content).map trim_line_end

/-- The lines actually delivered before a read error (if any) cuts the file off. -/
def effLines (f : MFile) : List (List Byte) :=
  match f.readErrAfter with
  | none => rawLines f
  | some k => (rawLines f).take k

/-- Whether the scheduled mid-file read error is actually reached: a read
error after `k` successful reads fires only if the reader makes a further
call, i.e. the file has at least `k` lines. -/
def readErrTriggered (f : MFile) : Bool :=
  match f.readErrAfter with
  | none => false
  | some k => decide (k ≤ (rawLines f).length)

/-- The file fails somewhere: either opening it fails or a read error fires. -/
def readFails (f : MFile) : Bool :=
  f.failsOpen || readErrTriggered f

inductive FileType where
  | Bead
  | Motor
deriving DecidableEq

structure Warning where
  file : String
  message : String
deriving DecidableEq

structure Error where
  file : Option String
  message : String
deriving DecidableEq

structure GroupSummary where
  file_type : FileType
  input_files : Nat
  output_path : Option String
  data_lines : Nat
  header : Option (List Byte)
  warnings : List Warning
  errors : List Error
deriving DecidableEq

/-- Behaviour of the output device: whether `File::create` fails, and how
many `write_line` calls succeed (`none` = all succeed). -/
structure OutConfig where
  createFails : Bool
  writeBudget : Option Nat
deriving DecidableEq

/-- The output device never fails. -/
def noFail (cfg : OutConfig) : Prop :=
  cfg.createFails = false ∧ cfg.writeBudget = none

/-- Mutable state of `combine_group_with_progress`: the summary being built,
the optional output writer (its written lines once created), the count of
successful writes, the canonical header, the buffer of data lines seen
before any header, the `saw_readable_file` flag, the `on_file_processed`
call log, and whether the group aborted (early `return summary`). -/
structure GState where
  summary : GroupSummary
  writer : Option (List (List Byte))
  writesDone : Nat
  headerRef : Option (List Byte)
  buffered : List (List Byte)
  sawReadable : Bool
  processed : List String
  aborted : Bool
deriving DecidableEq

/-- Source `ensure_output_writer`: create the output on first use, setting
`output_path`; on creation failure record an error and report failure. -/
def ensure_output_writer (cfg : OutConfig) (outPath : String) (st : GState) :
    GState × Bool :=
  match st.writer with
  | some _ => (st, true)
  | none =>
    if cfg.createFails = true then
      ({ st with summary :=
          { st.summary with errors :=
              st.summary.errors ++ [⟨some outPath, "Failed to create output"⟩] } },
       false)
    else
      ({ st with writer := some [],
                 summary := { st.summary with output_path := some outPath } },
       true)

/-- Whether the next `write_line` call succeeds under the configuration. -/
def writeOk (cfg : OutConfig) (st : GState) : Bool :=
  match cfg.writeBudget with
  | none => true
  | some k => decide (st.writesDone < k)

/-- Source `write_line`: append the line (conceptually followed by a newline)
to the output; reports failure without appending when the device fails. -/
def write_line (cfg : OutConfig) (st : GState) (line : List Byte) :
    GState × Bool :=
  if writeOk cfg st = true then
    ({ st with writer := some ((st.writer.getD []) ++ [line]),
               writesDone := st.writesDone + 1 }, true)
  else (st, false)

/-- Record a failed output write and abort the group. -/
def pushOutputError (outPath : String) (st : GState) : GState :=
  { st with
    summary := { st.summary with errors :=
        st.summary.errors ++ [⟨some outPath, "Failed to write output"⟩] },
    aborted := true }

/-- Flush a list of buffered lines to the output, counting each as a data
line; a write failure records an error and aborts. -/
def flushLines (cfg : OutConfig) (outPath : String) (st : GState) :
    List (List Byte) → GState
  | [] => st
  | l :: ls =>
    match write_line cfg st l with
    | (st1, true) =>
      flushLines cfg outPath
        { st1 with summary :=
            { st1.summary with data_lines := st1.summary.data_lines + 1 } } ls
    | (st1, false) => pushOutputError outPath st1

/-- One iteration of the line loop of `combine_group_with_progress`, for a
single normalized line of the file at `fpath`; `fh` is the file's own header
candidate found so far. -/
def processLine (cfg : OutConfig) (outPath : String) (fpath : String)
    (st : GState) (fh : Option (List Byte)) (line : List Byte) :
    GState × Option (List Byte) :=
  if st.aborted = true then (st, fh)
  else if is_whitespace_line line = true then (st, fh)
  else if (fh.isNone && starts_with_hash line) = true then
    match ensure_output_writer cfg outPath st with
    | (st1, false) => ({ st1 with aborted := true }, some line)
    | (st1, true) =>
      if st1.headerRef.isNone = true then
        let st2 := { st1 with
                     headerRef := some line,
                     summary := { st1.summary with header := some line } }
        match write_line cfg st2 line with
        | (st3, false) => (pushOutputError outPath st3, some line)
        | (st3, true) =>
          let st4 := flushLines cfg outPath st3 st3.buffered
          ({ st4 with buffered := [] }, some line)
      else if st1.headerRef ≠ some line then
        ({ st1 with summary := { st1.summary with warnings :=
            st1.summary.warnings ++ [⟨fpath, "Header mismatch"⟩] } }, some line)
      else (st1, some line)
  else if st.headerRef.isNone = true then
    ({ st with buffered := st.buffered ++ [line] }, fh)
  else
    match ensure_output_writer cfg outPath st with
    | (st1, false) => ({ st1 with aborted := true }, fh)
    | (st1, true) =>
      match write_line cfg st1 line with
      | (st2, false) => (pushOutputError outPath st2, fh)
      | (st2, true) =>
        ({ st2 with summary :=
            { st2.summary with data_lines := st2.summary.data_lines + 1 } }, fh)

/-- The line loop over the delivered lines of one file. -/
def processLines (cfg : OutConfig) (outPath : String) (fpath : String)
    (st : GState) (fh : Option (List Byte)) : List (List Byte) → GState
  | [] => st
  | l :: ls =>
    let r := processLine cfg outPath fpath st fh l
    processLines cfg outPath fpath r.1 r.2 ls

/-- Processing of one input file by `combine_group_with_progress`: open it
(recording an error on failure), run the line loop, record a mid-file read
error, set `saw_readable_file` on clean completion, and log the
`on_file_processed` callback; a group abort skips all of this. -/
def processFile (cfg : OutConfig) (outPath : String) (st : GState) (f : MFile) :
    GState :=
  if st.aborted = true then st
  else if f.failsOpen = true then
    { st with
      summary := { st.summary with errors :=
        st.summary.errors ++ [⟨some f.path, "Failed to read file"⟩] },
      processed := st.processed ++ [f.path] }
  else
    let st1 := processLines cfg outPath f.path st none (effLines f)
    if st1.aborted = true then st1
    else if readErrTriggered f = true then
      { st1 with
        summary := { st1.summary with errors :=
          st1.summary.errors ++ [⟨some f.path, "Failed to read file"⟩] },
        processed := st1.processed ++ [f.path] }
    else
      { st1 with sawReadable := true, processed := st1.processed ++ [f.path] }

def initSummary (ft : FileType) (n : Nat) : GroupSummary :=
  ⟨ft, n, none, 0, none, [], []⟩

def initState (ft : FileType) (n : Nat) : GState :=
  ⟨initSummary ft n, none, 0, none, [], false, [], false⟩

/-- Result of a group combine: the summary, the output file content (`none`
when the file was never created), the `on_file_processed` log, and whether
the group aborted early. -/
structure GroupResult where
  summary : GroupSummary
  output : Option (List (List Byte))
  processed : List String
  aborted : Bool
deriving DecidableEq

/-- The epilogue of `combine_group_with_progress`: flush buffered lines when
no header was ever found, then create the output for a readable-but-empty
group. -/
def groupEpilogue (cfg : OutConfig) (outPath : String) (st : GState) : GState :=
  let st2 :=
    if st.aborted = true then st
    else if (st.headerRef.isNone && !st.buffered.isEmpty) = true then
      match ensure_output_writer cfg outPath st with
      | (st1, false) => { st1 with aborted := true }
      | (st1, true) =>
        let stf := flushLines cfg outPath st1 st1.buffered
        { stf with buffered := [] }
    else st
  if st2.aborted = true then st2
  else if (st2.writer.isNone && st2.sawReadable) = true then
    match ensure_output_writer cfg outPath st2 with
    | (st1, false) => { st1 with aborted := true }
    | (st1, true) => st1
  else st2

/-- Source `combine_group_with_progress`. -/
def combine_group_with_progress (cfg : OutConfig) (file_type : FileType)
    (files : List MFile) (outPath : String) : GroupResult :=
  if files.isEmpty = true then
    ⟨initSummary file_type files.length, none, [], false⟩
  else
    let st := files.foldl (processFile cfg outPath) (initState file_type files.length)
    let st := groupEpilogue cfg outPath st
    ⟨st.summary, st.writer, st.processed, st.aborted⟩

/-- Source `combine_group` (progress callback discarded). -/
def combine_group (cfg : OutConfig) (file_type : FileType)
    (files : List MFile) (outPath : String) : GroupSummary :=
  (combine_group_with_progress cfg file_type files outPath).summary

/-! Discovery and the folder orchestrator. -/

def BEAD_PREFIX : String := "Bead Positions"
def MOTOR_PREFIX : String := "Motor Positions"
def BEAD_OUTPUT : String := "Bead Positions Combined.txt"
def MOTOR_OUTPUT : String := "Motor Positions Combined.txt"

/-- Literal prefix test on character lists. -/
def charsPrefixOf : List Char → List Char → Bool
  | [], _ => true
  | _ :: _, [] => false
  | a :: as, b :: bs => a == b && charsPrefixOf as bs

/-- Rust `str::starts_with` for a literal pattern: a byte-wise prefix test,
which on UTF-8 strings is exactly a character-wise prefix test. -/
def str_starts_with (s p : String) : Bool :=
  charsPrefixOf p.data s.data

/-- Source `classify_name`: prefix match, bead prefix checked first. -/
def classify_name (name : String) : Option FileType :=
  if str_starts_with name BEAD_PREFIX then some FileType.Bead
  else if str_starts_with name MOTOR_PREFIX then some FileType.Motor
  else none

/-- Source `is_combined_output`. -/
def is_combined_output (name : String) : Bool :=
  name == BEAD_OUTPUT || name == MOTOR_OUTPUT

/-- Source `output_filename`. -/
def output_filename : FileType → String
  | FileType.Bead => BEAD_OUTPUT
  | FileType.Motor => MOTOR_OUTPUT

/-- Rust `Path::extension` on a plain file name: the part after the last
dot, none when there is no dot or the only dot starts the name, with the
special case of the name `".."`. -/
def rustExtension (name : String) : Option String :=
  if name = ".." then none
  else
    let cs := name.data
    match ((List.range cs.length).filter (fun i => cs.getD i ' ' = '.')).getLast? with
    | none => none
    | some i => if i = 0 then none else some ⟨cs.drop (i + 1)⟩

/-- Lexicographic (byte-order) strict comparison of names; on UTF-8 strings
byte order and code-point order agree, so the key is the code-point list. -/
def bytesLt : List Nat → List Nat → Bool
  | [], [] => false
  | [], _ :: _ => true
  | _ :: _, [] => false
  | a :: as, b :: bs => a < b || (a == b && bytesLt as bs)

def nameKey (s : String) : List Nat :=
  s.data.map Char.toNat

def nameLt (a b : String) : Bool :=
  bytesLt (nameKey a) (nameKey b)

/-- A directory entry: its file name, whether it is a regular file, and the
behaviour of the file it denotes. -/
structure DirEntry where
  name : String
  isFile : Bool
  failsOpen : Bool
  content : List Byte
  readErrAfter : Option Nat
deriving DecidableEq

/-- The input file denoted by an entry of `folder`. -/
def entryFile (folder : String) (e : DirEntry) : MFile :=
  ⟨folder ++ "/" ++ e.name, e.failsOpen, e.content, e.readErrAfter⟩

/-- A folder: either its listing fails or it has a list of direct entries. -/
inductive MFolder where
  | unlistable
  | entries (es : List DirEntry)
deriving DecidableEq

/-- Stable insertion placing an entry after all name-equal ones (matching
Rust's stable `sort_by`). -/
def insertSorted (e : DirEntry) : List DirEntry → List DirEntry
  | [] => [e]
  | x :: xs => if nameLt e.name x.name = true then e :: x :: xs else x :: insertSorted e xs

/-- Source `sort_paths`: stable sort by file name. -/
def sort_paths (es : List DirEntry) : List DirEntry :=
  es.foldl (fun acc e => insertSorted e acc) []

/-- An entry survives the eligibility filters of discovery: regular file,
extension exactly `txt`, and not a reserved combined-output name. -/
def eligible (e : DirEntry) : Bool :=
  e.isFile && (rustExtension e.name == some "txt") && !is_combined_output e.name

structure DiscoveredFiles where
  bead_files : List DirEntry
  motor_files : List DirEntry
  events : List (Nat × Nat)
deriving DecidableEq

def discoverStep (acc : DiscoveredFiles) (e : DirEntry) : DiscoveredFiles :=
  if eligible e = false then acc
  else
    match classify_name e.name with
    | some FileType.Bead =>
      { acc with bead_files := acc.bead_files ++ [e],
                 events := acc.events ++ [(acc.bead_files.length + 1, acc.motor_files.length)] }
    | some FileType.Motor =>
      { acc with motor_files := acc.motor_files ++ [e],
                 events := acc.events ++ [(acc.bead_files.length, acc.motor_files.length + 1)] }
    | none => acc

/-- Source `discover_files_with_progress` on a listable folder: classify the
eligible entries in enumeration order, emitting running counts, then sort
each category by file name. -/
def discover_files_with_progress (es : List DirEntry) : DiscoveredFiles :=
  let acc := es.foldl discoverStep ⟨[], [], []⟩
  { acc with bead_files := sort_paths acc.bead_files,
             motor_files := sort_paths acc.motor_files }

inductive ProgressEvent where
  | Discovery (bead_files motor_files : Nat)
  | Combine (processed_files total_files : Nat) (file_type : FileType)
      (current_file : String)
deriving DecidableEq

structure CombineReport where
  folder : String
  bead_files : Nat
  motor_files : Nat
  bead : Option GroupSummary
  motor : Option GroupSummary
  errors : List Error
deriving DecidableEq

/-- Result of a folder run: the report, the emitted progress events, and the
on-disk content of the two output files (`none` = not created). -/
structure FolderResult where
  report : CombineReport
  events : List ProgressEvent
  beadOut : Option (List (List Byte))
  motorOut : Option (List (List Byte))
deriving DecidableEq

/-- The combine notifications produced by the shared `on_file_processed`
callback: each call increments the running counter and reports it with the
fixed total. -/
def combineEvents (total : Nat) (ft : FileType) (start : Nat) :
    List String → List ProgressEvent
  | [] => []
  | p :: ps => ProgressEvent.Combine (start + 1) total ft p
      :: combineEvents total ft (start + 1) ps

/-- Source `combine_folder_with_progress`: scan (folder-level error on
failure), then combine each non-empty category with a shared progress
counter whose total is fixed before combining starts. -/
def combine_folder_with_progress (folder : String) (fs : MFolder)
    (cfgBead cfgMotor : OutConfig) : FolderResult :=
  match fs with
  | MFolder.unlistable =>
    ⟨⟨folder, 0, 0, none, none, [⟨none, "Failed to scan folder"⟩]⟩, [], none, none⟩
  | MFolder.entries es =>
    let d := discover_files_with_progress es
    let discEvents := d.events.map (fun p => ProgressEvent.Discovery p.1 p.2)
    let nb := d.bead_files.length
    let nm := d.motor_files.length
    let total := nb + nm
    let beadRes :=
      if nb = 0 then none
      else some (combine_group_with_progress cfgBead FileType.Bead
        (d.bead_files.map (entryFile folder)) (folder ++ "/" ++ BEAD_OUTPUT))
    let motorRes :=
      if nm = 0 then none
      else some (combine_group_with_progress cfgMotor FileType.Motor
        (d.motor_files.map (entryFile folder)) (folder ++ "/" ++ MOTOR_OUTPUT))
    let beadProc := (beadRes.map GroupResult.processed).getD []
    let motorProc := (motorRes.map GroupResult.processed).getD []
    ⟨⟨folder, nb, nm, beadRes.map GroupResult.summary, motorRes.map GroupResult.summary, []⟩,
     discEvents ++ combineEvents total FileType.Bead 0 beadProc
       ++ combineEvents total FileType.Motor beadProc.length motorProc,
     (beadRes.map GroupResult.output).getD none,
     (motorRes.map GroupResult.output).getD none⟩

/-- Source `combine_folder`. -/
def combine_folder (folder : String) (fs : MFolder)
    (cfgBead cfgMotor : OutConfig) : CombineReport :=
  (combine_folder_with_progress folder fs cfgBead cfgMotor).report

/-! Characterizations of a run, used to state the claims. -/

/-- The non-blank lines delivered from a file (none when opening fails). -/
def nbLines (f : MFile) : List (List Byte) :=
  if f.failsOpen then []
  else (effLines f).filter (fun l => !is_whitespace_line l)

/-- The file's header candidate: its first non-blank line starting with `#`. -/
def headerOf (f : MFile) : Option (List Byte) :=
  (nbLines f).find? starts_with_hash

/-- Drop the first header-looking element of a line list. -/
def removeFirstHash : List (List Byte) → List (List Byte)
  | [] => []
  | l :: ls => if starts_with_hash l = true then ls else l :: removeFirstHash ls

/-- The data lines a file contributes: its non-blank lines minus its header
candidate (later hash lines count as data). -/
def dataOf (f : MFile) : List (List Byte) :=
  removeFirstHash (nbLines f)

/-- The canonical header of a group: the header of the first file, in list
order, that has one. -/
def firstHeaderOf (files : List MFile) : Option (List Byte) :=
  (files.filterMap headerOf).head?

/-- All data lines of the group, files in list order, lines in file order. -/
def allDataOf (files : List MFile) : List (List Byte) :=
  (files.map dataOf).flatten

/-- The expected warning list: scanning with the current canonical header,
each file whose own header differs from the canonical one gets one
`Header mismatch` warning. -/
def expWarnings (canon : Option (List Byte)) : List MFile → List Warning
  | [] => []
  | f :: rest =>
    match canon with
    | none => expWarnings (headerOf f) rest
    | some h =>
      (match headerOf f with
       | some x => if x ≠ h then [⟨f.path, "Header mismatch"⟩] else []
       | none => []) ++ expWarnings (some h) rest

/-- The expected error list: one read error per file that fails. -/
def expErrors (files : List MFile) : List Error :=
  (files.map (fun f =>
    if readFails f = true then [⟨some f.path, "Failed to read file"⟩] else ([] : List Error))).flatten

/-- Some file of the group is read to completion without error. -/
def anyReadable (files : List MFile) : Bool :=
  files.any (fun f => !readFails f)

/-! Characterization of the line loop under a never-failing output device.
Each lemma works on a fully destructured state so that the definitions
reduce, and describes one mode of the loop. -/

/-- Non-blank lines of a line list. -/
def nbl (ls : List (List Byte)) : List (List Byte) :=
  ls.filter (fun l => !is_whitespace_line l)

/-- The warning produced by one later file whose header candidate is `cand`
when the canonical header is `h`. -/
def mismatchWarn (fp : String) (h : List Byte) (cand : Option (List Byte)) :
    List Warning :=
  match cand with
  | some x => if x = h then [] else [⟨fp, "Header mismatch"⟩]
  | none => []

/-- The canonical header after scanning `done`, starting from `canon`. -/
def canonAfter (canon : Option (List Byte)) (done : List MFile) :
    Option (List Byte) :=
  match canon with
  | some h => some h
  | none => firstHeaderOf done

/-- The warnings one file appends, given the canonical header in force. -/
def warnOf (canon : Option (List Byte)) (f : MFile) : List Warning :=
  match canon with
  | some h => mismatchWarn f.path h (headerOf f)
  | none => []

/-- Invariant tying the combiner state after processing the files `done` to
the spec-side description of the run, under a never-failing output device. -/
def Inv (ft : FileType) (n : Nat) (oP : String) (done : List MFile)
    (st : GState) : Prop :=
  st.aborted = false ∧
  st.headerRef = firstHeaderOf done ∧
  st.summary.header = firstHeaderOf done ∧
  st.summary.warnings = expWarnings none done ∧
  st.summary.errors = expErrors done ∧
  st.processed = done.map MFile.path ∧
  st.sawReadable = anyReadable done ∧
  st.summary.file_type = ft ∧
  st.summary.input_files = n ∧
  (match firstHeaderOf done with
   | some h =>
     st.writer = some (h :: allDataOf done) ∧ st.buffered = [] ∧
     st.summary.data_lines = (allDataOf done).length ∧
     st.summary.output_path = some oP
   | none =>
     st.writer = none ∧ st.buffered = allDataOf done ∧
     st.summary.data_lines = 0 ∧ st.summary.output_path = none)

/-- The content the output file ends up with (`none`: never created). -/
def finalOutput (files : List MFile) : Option (List (List Byte)) :=
  match firstHeaderOf files with
  | some h => some (h :: allDataOf files)
  | none =>
    if (allDataOf files).isEmpty = true then
      (if anyReadable files = true then some [] else none)
    else some (allDataOf files)

/-- The expected `output_path` field of the summary. -/
def specOutputPath (oP : String) (files : List MFile) : Option String :=
  if files.isEmpty = true then none
  else
    match finalOutput files with
    | some _ => some oP
    | none => none

/-- The expected summary of a whole group combine. -/
def specSummary (ft : FileType) (oP : String) (files : List MFile) :
    GroupSummary :=
  ⟨ft, files.length, specOutputPath oP files, (allDataOf files).length,
   firstHeaderOf files, expWarnings none files, expErrors files⟩

def wFileA : MFile := ⟨"A.txt", false, [49, 10, 50, 10], none⟩
def wFileB : MFile := ⟨"B.txt", false, [35, 72, 49, 10, 51, 10], none⟩
def wFileC : MFile := ⟨"C.txt", false, [35, 72, 50, 10, 52, 10], none⟩

def wFileW : MFile := ⟨"W.txt", false, [32, 10, 9, 10, 53, 10, 32, 10], none⟩

def wFileEmpty : MFile := ⟨"empty.txt", false, [], none⟩

/-- An error recording an output create/write failure on `oP`. -/
def abortTagged (oP : String) (e : Error) : Bool :=
  e.file == some oP
    && (e.message == "Failed to create output"
        || e.message == "Failed to write output")

def taggedCount (oP : String) (es : List Error) : Nat :=
  es.countP (abortTagged oP)

/-- One step of the combiner: errors only grow, the abort flag is sticky,
the progress log does not change, and the step appends exactly one
output-tagged error exactly when it flips the abort flag. -/
def ErrStep (oP : String) (st st' : GState) : Prop :=
  (∃ t, st'.summary.errors = st.summary.errors ++ t ∧
     taggedCount oP t
       = (if (st'.aborted && !st.aborted) = true then 1 else 0)) ∧
  (st.aborted = true → st'.aborted = true) ∧
  st'.processed = st.processed

/-- Like `ErrStep` but without the progress-log clause (file steps log). -/
def AbortOk (oP : String) (st st' : GState) : Prop :=
  (∃ t, st'.summary.errors = st.summary.errors ++ t ∧
     taggedCount oP t = (if (st'.aborted && !st.aborted) = true then 1 else 0)) ∧
  (st.aborted = true → st'.aborted = true)

/-- Decidable check that a list of entries is sorted by name. -/
def sortedByName : List DirEntry → Bool
  | [] => true
  | [_] => true
  | a :: b :: rest => !nameLt b.name a.name && sortedByName (b :: rest)

/-- Bead eligibility exactly as discovery tests it: regular file, extension
exactly `txt`, not a reserved output name, classified Bead by name prefix. -/
def beadElig (e : DirEntry) : Bool :=
  eligible e && (classify_name e.name == some FileType.Bead)

def motorElig (e : DirEntry) : Bool :=
  eligible e && (classify_name e.name == some FileType.Motor)

/-- The running processed count carried by an event (0 for discovery). -/
def evProcessed : ProgressEvent → Nat
  | ProgressEvent.Discovery _ _ => 0
  | ProgressEvent.Combine p _ _ _ => p

/-- The list `[s+1, s+2, ..., s+n]`. -/
def countUp (s : Nat) : Nat → List Nat
  | 0 => []
  | n + 1 => (s + 1) :: countUp (s + 1) n

theorem writeOk_of_none (cfg : OutConfig) (hb : cfg.writeBudget = none)
    (st : GState) : writeOk cfg st = true := by
  simp [writeOk, hb]

theorem nbl_nil : nbl [] = [] := rfl

theorem nbl_cons_blank (l : List Byte) (ls : List (List Byte))
    (hw : is_whitespace_line l = true) : nbl (l :: ls) = nbl ls := by
  simp [nbl, List.filter_cons, hw]

theorem nbl_cons (l : List Byte) (ls : List (List Byte))
    (hw : is_whitespace_line l = false) : nbl (l :: ls) = l :: nbl ls := by
  simp [nbl, List.filter_cons, hw]

theorem flushLines_noFail (cfg : OutConfig) (hb : cfg.writeBudget = none)
    (oP : String) (ls : List (List Byte)) :
    ∀ (ft : FileType) (n : Nat) (op : Option String) (dl : Nat)
      (hd : Option (List Byte)) (ws : List Warning) (es : List Error)
      (w : List (List Byte)) (wd : Nat) (hr : Option (List Byte))
      (buf : List (List Byte)) (saw : Bool) (pr : List String),
    flushLines cfg oP
      (GState.mk (GroupSummary.mk ft n op dl hd ws es) (some w) wd hr buf saw pr false) ls
      = GState.mk (GroupSummary.mk ft n op (dl + ls.length) hd ws es)
          (some (w ++ ls)) (wd + ls.length) hr buf saw pr false := by
  induction ls with
  | nil => intros; simp [flushLines]
  | cons l ls ih =>
    intros ft n op dl hd ws es w wd hr buf saw pr
    simp only [flushLines, write_line, writeOk_of_none cfg hb, if_pos]
    rw [ih]
    simp [List.append_assoc]
    omega

/-- After the canonical header is fixed and the current file has already seen
its own header candidate, every non-blank line is written as data. -/
theorem processLines_modeC (cfg : OutConfig) (hb : cfg.writeBudget = none)
    (oP fp : String) (ls : List (List Byte)) :
    ∀ (ft : FileType) (n : Nat) (op : Option String) (dl : Nat)
      (hd : Option (List Byte)) (ws : List Warning) (es : List Error)
      (w : List (List Byte)) (wd : Nat) (h x : List Byte)
      (buf : List (List Byte)) (saw : Bool) (pr : List String),
    processLines cfg oP fp
      (GState.mk (GroupSummary.mk ft n op dl hd ws es) (some w) wd (some h) buf saw pr false)
      (some x) ls
      = GState.mk (GroupSummary.mk ft n op (dl + (nbl ls).length) hd ws es)
          (some (w ++ nbl ls)) (wd + (nbl ls).length) (some h) buf saw pr false := by
  induction ls with
  | nil => intros; simp [processLines, nbl]
  | cons l ls ih =>
    intros ft n op dl hd ws es w wd h x buf saw pr
    by_cases hw : is_whitespace_line l = true
    · rw [nbl_cons_blank l ls hw]
      simp only [processLines]
      simp [processLine, hw]
      exact ih ft n op dl hd ws es w wd h x buf saw pr
    · have hw' : is_whitespace_line l = false := by simpa using hw
      rw [nbl_cons l ls hw']
      simp only [processLines]
      simp [processLine, hw', ensure_output_writer, write_line, writeOk_of_none cfg hb]
      rw [ih]
      simp [List.append_assoc]
      omega

theorem removeFirstHash_cons_hash {l : List Byte} (ls : List (List Byte))
    (hh : starts_with_hash l = true) : removeFirstHash (l :: ls) = ls := by
  simp [removeFirstHash, hh]

theorem removeFirstHash_cons {l : List Byte} (ls : List (List Byte))
    (hh : starts_with_hash l = false) :
    removeFirstHash (l :: ls) = l :: removeFirstHash ls := by
  simp [removeFirstHash, hh]

theorem processLine_blank (cfg : OutConfig) (oP fp : String) (st : GState)
    (fh : Option (List Byte)) (l : List Byte) (ha : st.aborted = false)
    (hw : is_whitespace_line l = true) :
    processLine cfg oP fp st fh l = (st, fh) := by
  simp [processLine, ha, hw]

/-- After the canonical header is fixed, a file still looking for its own
header writes every non-blank non-first-hash line as data and warns once if
its header candidate differs from the canonical header. -/
theorem processLines_modeB (cfg : OutConfig) (hb : cfg.writeBudget = none)
    (oP fp : String) (ls : List (List Byte)) :
    ∀ (ft : FileType) (n : Nat) (op : Option String) (dl : Nat)
      (hd : Option (List Byte)) (ws : List Warning) (es : List Error)
      (w : List (List Byte)) (wd : Nat) (h : List Byte)
      (buf : List (List Byte)) (saw : Bool) (pr : List String),
    processLines cfg oP fp
      (GState.mk (GroupSummary.mk ft n op dl hd ws es) (some w) wd (some h) buf saw pr false)
      none ls
      = GState.mk
          (GroupSummary.mk ft n op (dl + (removeFirstHash (nbl ls)).length) hd
            (ws ++ mismatchWarn fp h ((nbl ls).find? starts_with_hash)) es)
          (some (w ++ removeFirstHash (nbl ls)))
          (wd + (removeFirstHash (nbl ls)).length) (some h) buf saw pr false := by
  induction ls with
  | nil => intros; simp [processLines, nbl, removeFirstHash, mismatchWarn]
  | cons l ls ih =>
    intros ft n op dl hd ws es w wd h buf saw pr
    by_cases hw : is_whitespace_line l = true
    · rw [nbl_cons_blank l ls hw]
      simp only [processLines]
      simp [processLine, hw]
      exact ih ft n op dl hd ws es w wd h buf saw pr
    · have hw' : is_whitespace_line l = false := by simpa using hw
      rw [nbl_cons l ls hw']
      by_cases hh : starts_with_hash l = true
      · rw [removeFirstHash_cons_hash _ hh]
        simp only [processLines]
        by_cases hxh : h = l
        · subst hxh
          simp [processLine, hw', hh, ensure_output_writer]
          rw [processLines_modeC cfg hb]
          simp [mismatchWarn, List.find?_cons, hh]
        · simp [processLine, hw', hh, ensure_output_writer, hxh]
          rw [processLines_modeC cfg hb]
          simp [mismatchWarn, List.find?_cons, hh, Ne.symm hxh]
      · have hh' : starts_with_hash l = false := by simpa using hh
        rw [removeFirstHash_cons _ hh']
        simp only [processLines]
        simp [processLine, hw', hh', ensure_output_writer, write_line,
          writeOk_of_none cfg hb]
        rw [ih]
        simp [List.find?_cons, hh', List.append_assoc]
        omega

/-- Before any header is seen everything is buffered; the first hash line
becomes the canonical header, is written first, and the buffer is flushed
after it. -/
theorem processLines_modeA (cfg : OutConfig) (hc : cfg.createFails = false)
    (hb : cfg.writeBudget = none) (oP fp : String) (ls : List (List Byte)) :
    ∀ (ft : FileType) (n : Nat) (op : Option String) (dl : Nat)
      (hd : Option (List Byte)) (ws : List Warning) (es : List Error)
      (wd : Nat) (buf : List (List Byte)) (saw : Bool) (pr : List String),
    processLines cfg oP fp
      (GState.mk (GroupSummary.mk ft n op dl hd ws es) none wd none buf saw pr false)
      none ls
      = match (nbl ls).find? starts_with_hash with
        | none =>
          GState.mk (GroupSummary.mk ft n op dl hd ws es) none wd none
            (buf ++ nbl ls) saw pr false
        | some x =>
          GState.mk
            (GroupSummary.mk ft n (some oP)
              (dl + (buf ++ removeFirstHash (nbl ls)).length) (some x) ws es)
            (some (x :: (buf ++ removeFirstHash (nbl ls))))
            (wd + 1 + (buf ++ removeFirstHash (nbl ls)).length) (some x) [] saw pr
            false := by
  induction ls with
  | nil => intros; simp [processLines, nbl, removeFirstHash]
  | cons l ls ih =>
    intros ft n op dl hd ws es wd buf saw pr
    by_cases hw : is_whitespace_line l = true
    · rw [nbl_cons_blank l ls hw]
      simp only [processLines]
      rw [processLine_blank cfg oP fp _ _ _ rfl hw]
      exact ih ft n op dl hd ws es wd buf saw pr
    · have hw' : is_whitespace_line l = false := by simpa using hw
      rw [nbl_cons l ls hw']
      by_cases hh : starts_with_hash l = true
      · rw [List.find?_cons_of_pos _ hh, removeFirstHash_cons_hash _ hh]
        simp only [processLines]
        simp [processLine, hw', hh, ensure_output_writer, hc, write_line,
          writeOk_of_none cfg hb]
        rw [flushLines_noFail cfg hb]
        rw [processLines_modeC cfg hb]
        simp [List.append_assoc]
        omega
      · have hh' : starts_with_hash l = false := by simpa using hh
        rw [List.find?_cons_of_neg _ (by simp [hh']), removeFirstHash_cons _ hh']
        simp only [processLines]
        simp [processLine, hw', hh']
        rw [ih]
        cases hfind : (nbl ls).find? starts_with_hash with
        | none => simp
        | some x => simp [List.append_assoc]

/-! Spec-side bookkeeping lemmas. -/

theorem nbLines_eq (f : MFile) (h : f.failsOpen = false) :
    nbLines f = nbl (effLines f) := by
  simp [nbLines, nbl, h]

theorem headerOf_eq_find (f : MFile) :
    headerOf f = (nbLines f).find? starts_with_hash := rfl

theorem headerOf_failsOpen (f : MFile) (h : f.failsOpen = true) :
    headerOf f = none := by
  simp [headerOf, nbLines, h]

theorem dataOf_failsOpen (f : MFile) (h : f.failsOpen = true) :
    dataOf f = [] := by
  simp [dataOf, nbLines, h, removeFirstHash]

theorem readFails_of_failsOpen (f : MFile) (h : f.failsOpen = true) :
    readFails f = true := by
  simp [readFails, h]

theorem readFails_eq (f : MFile) (h : f.failsOpen = false) :
    readFails f = readErrTriggered f := by
  simp [readFails, h]

theorem removeFirstHash_of_none (ls : List (List Byte))
    (h : ls.find? starts_with_hash = none) : removeFirstHash ls = ls := by
  induction ls with
  | nil => rfl
  | cons l ls ih =>
    rw [List.find?_cons] at h
    cases hh : starts_with_hash l with
    | true => simp [hh] at h
    | false =>
      rw [removeFirstHash_cons _ hh, ih]
      simpa [hh] using h

theorem firstHeaderOf_nil : firstHeaderOf [] = none := rfl

theorem firstHeaderOf_cons (f : MFile) (rest : List MFile) :
    firstHeaderOf (f :: rest)
      = match headerOf f with
        | some h => some h
        | none => firstHeaderOf rest := by
  cases h : headerOf f <;> simp [firstHeaderOf, List.filterMap_cons, h]

theorem firstHeaderOf_append (done : List MFile) (f : MFile) :
    firstHeaderOf (done ++ [f])
      = match firstHeaderOf done with
        | some h => some h
        | none => headerOf f := by
  induction done with
  | nil => cases h : headerOf f <;> simp [firstHeaderOf, List.filterMap_cons, h]
  | cons g done ih =>
    rw [List.cons_append, firstHeaderOf_cons, firstHeaderOf_cons, ih]
    cases hg : headerOf g <;> simp

theorem allDataOf_nil : allDataOf [] = [] := rfl

theorem allDataOf_append (done : List MFile) (f : MFile) :
    allDataOf (done ++ [f]) = allDataOf done ++ dataOf f := by
  simp [allDataOf]

theorem expErrors_nil : expErrors [] = [] := rfl

theorem expErrors_append (done : List MFile) (f : MFile) :
    expErrors (done ++ [f])
      = expErrors done
        ++ (if readFails f = true then [⟨some f.path, "Failed to read file"⟩]
            else ([] : List Error)) := by
  simp [expErrors]

theorem anyReadable_append (done : List MFile) (f : MFile) :
    anyReadable (done ++ [f]) = (anyReadable done || !readFails f) := by
  simp [anyReadable]

theorem expWarnings_append (f : MFile) :
    ∀ (done : List MFile) (canon : Option (List Byte)),
    expWarnings canon (done ++ [f])
      = expWarnings canon done ++ warnOf (canonAfter canon done) f := by
  intro done
  induction done with
  | nil =>
    intro canon
    cases canon with
    | none => simp [expWarnings, warnOf, canonAfter, firstHeaderOf]
    | some h => simp [expWarnings, warnOf, canonAfter, mismatchWarn]
  | cons g done ih =>
    intro canon
    cases canon with
    | none =>
      rw [List.cons_append]
      show expWarnings (headerOf g) (done ++ [f]) = _
      rw [ih (headerOf g)]
      have : canonAfter none (g :: done) = canonAfter (headerOf g) done := by
        cases hg : headerOf g <;>
          simp [canonAfter, firstHeaderOf_cons, hg]
      rw [this]
      rfl
    | some h =>
      rw [List.cons_append]
      show (_ ++ expWarnings (some h) (done ++ [f])) = _
      rw [ih (some h)]
      simp [canonAfter, expWarnings, List.append_assoc]

theorem warnOf_headerNone (canon : Option (List Byte)) (f : MFile)
    (h : headerOf f = none) : warnOf canon f = [] := by
  cases canon <;> simp [warnOf, mismatchWarn, h]

theorem firstHeaderOf_append_some (done : List MFile) {h : List Byte}
    (f : MFile) (hfh : firstHeaderOf done = some h) :
    firstHeaderOf (done ++ [f]) = some h := by
  rw [firstHeaderOf_append, hfh]

theorem firstHeaderOf_append_none (done : List MFile) (f : MFile)
    (hfh : firstHeaderOf done = none) :
    firstHeaderOf (done ++ [f]) = headerOf f := by
  rw [firstHeaderOf_append, hfh]

theorem firstHeaderOf_append_noHeader (done : List MFile) (f : MFile)
    (hf : headerOf f = none) :
    firstHeaderOf (done ++ [f]) = firstHeaderOf done := by
  rw [firstHeaderOf_append]
  cases hfh : firstHeaderOf done <;> simp [hf]

theorem nbl_eff_eq (f : MFile) (h : f.failsOpen = false) :
    nbl (effLines f) = nbLines f := (nbLines_eq f h).symm

theorem find_nbLines_eq (f : MFile) :
    (nbLines f).find? starts_with_hash = headerOf f := rfl

theorem remove_nbLines_eq (f : MFile) :
    removeFirstHash (nbLines f) = dataOf f := rfl

theorem processFile_step (cfg : OutConfig) (hc : cfg.createFails = false)
    (hb : cfg.writeBudget = none) (oP : String) (ft : FileType) (n : Nat)
    (done : List MFile) (f : MFile) (st : GState)
    (hInv : Inv ft n oP done st) :
    Inv ft n oP (done ++ [f]) (processFile cfg oP st f) := by
  obtain ⟨sum, w, wd, hr, buf, saw, pr, ab⟩ := st
  obtain ⟨sft, sn, sop, sdl, shd, sws, ses⟩ := sum
  obtain ⟨hab, hhr, hshd, hws, hes, hpr, hsaw, hft, hn, hmode⟩ := hInv
  dsimp only at hab hhr hshd hws hes hpr hsaw hft hn hmode
  subst hab hhr hshd hws hes hpr hsaw hft hn
  by_cases hopen : f.failsOpen = true
  · have hhf := headerOf_failsOpen f hopen
    have hfhapp := firstHeaderOf_append_noHeader done f hhf
    simp only [processFile, hopen, if_true, if_false, Bool.false_eq_true,
      reduceIte]
    constructor
    · rfl
    refine ⟨hfhapp.symm, hfhapp.symm, ?_, ?_, ?_, ?_, rfl, rfl, ?_⟩
    · rw [expWarnings_append, warnOf_headerNone _ _ hhf, List.append_nil]
    · rw [expErrors_append, readFails_of_failsOpen f hopen]
      simp
    · simp
    · rw [anyReadable_append, readFails_of_failsOpen f hopen]
      simp
    · rw [hfhapp, allDataOf_append, dataOf_failsOpen f hopen, List.append_nil]
      exact hmode
  · have hopen' : f.failsOpen = false := by simpa using hopen
    cases hfh : firstHeaderOf done with
    | some h =>
      rw [hfh] at hmode
      dsimp only at hmode
      obtain ⟨hw, hbuf, hdl, hop⟩ := hmode
      subst hw hbuf hdl hop
      have hfhapp := firstHeaderOf_append_some done f hfh
      simp only [processFile, hopen', if_false, Bool.false_eq_true, reduceIte]
      rw [processLines_modeB cfg hb oP f.path (effLines f)]
      rw [nbl_eff_eq f hopen', find_nbLines_eq, remove_nbLines_eq]
      by_cases hre : readErrTriggered f = true
      · simp only [hre, if_true, reduceIte]
        refine ⟨rfl, hfhapp.symm, hfhapp.symm, ?_, ?_, ?_, ?_, rfl, rfl, ?_⟩
        · rw [expWarnings_append]
          simp [canonAfter, hfh, warnOf]
        · rw [expErrors_append, readFails_eq f hopen', hre]
          simp
        · simp
        · rw [anyReadable_append, readFails_eq f hopen', hre]
          simp
        · rw [hfhapp]
          refine ⟨?_, rfl, ?_, rfl⟩
          · simp [allDataOf_append]
          · simp [allDataOf_append]
      · have hre' : readErrTriggered f = false := by simpa using hre
        simp only [hre', if_false, Bool.false_eq_true, reduceIte]
        refine ⟨rfl, hfhapp.symm, hfhapp.symm, ?_, ?_, ?_, ?_, rfl, rfl, ?_⟩
        · rw [expWarnings_append]
          simp [canonAfter, hfh, warnOf]
        · rw [expErrors_append, readFails_eq f hopen', hre']
          simp
        · simp
        · rw [anyReadable_append, readFails_eq f hopen', hre']
          simp
        · rw [hfhapp]
          refine ⟨?_, rfl, ?_, rfl⟩
          · simp [allDataOf_append]
          · simp [allDataOf_append]
    | none =>
      rw [hfh] at hmode
      dsimp only at hmode
      obtain ⟨hw, hbuf, hdl, hop⟩ := hmode
      subst hw hbuf hdl hop
      simp only [processFile, hopen', if_false, Bool.false_eq_true, reduceIte]
      rw [processLines_modeA cfg hc hb oP f.path (effLines f)]
      rw [nbl_eff_eq f hopen', find_nbLines_eq, remove_nbLines_eq]
      cases hhf : headerOf f with
      | none =>
        have hfh2 : firstHeaderOf (done ++ [f]) = none := by
          rw [firstHeaderOf_append_noHeader done f hhf]
          exact hfh
        have hdata : dataOf f = nbLines f := by
          rw [← remove_nbLines_eq]
          rw [removeFirstHash_of_none _ hhf]
        by_cases hre : readErrTriggered f = true
        · simp only [hre, if_true, reduceIte]
          refine ⟨rfl, hfh2.symm, hfh2.symm, ?_, ?_, ?_, ?_, rfl, rfl, ?_⟩
          · rw [expWarnings_append, warnOf_headerNone _ _ hhf, List.append_nil]
            rfl
          · rw [expErrors_append, readFails_eq f hopen', hre]
            simp
          · simp
          · rw [anyReadable_append, readFails_eq f hopen', hre]
            simp
          · rw [hfh2]
            refine ⟨rfl, ?_, rfl, rfl⟩
            simp [allDataOf_append, hdata]
        · have hre' : readErrTriggered f = false := by simpa using hre
          simp only [hre', if_false, Bool.false_eq_true, reduceIte]
          refine ⟨rfl, hfh2.symm, hfh2.symm, ?_, ?_, ?_, ?_, rfl, rfl, ?_⟩
          · rw [expWarnings_append, warnOf_headerNone _ _ hhf, List.append_nil]
          · rw [expErrors_append, readFails_eq f hopen', hre']
            simp
          · simp
          · rw [anyReadable_append, readFails_eq f hopen', hre']
            simp
          · rw [hfh2]
            refine ⟨rfl, ?_, rfl, rfl⟩
            simp [allDataOf_append, hdata]
      | some x =>
        have hfhapp : firstHeaderOf (done ++ [f]) = some x := by
          rw [firstHeaderOf_append_none done f hfh, hhf]
        by_cases hre : readErrTriggered f = true
        · simp only [hre, if_true, reduceIte]
          refine ⟨rfl, hfhapp.symm, hfhapp.symm, ?_, ?_, ?_, ?_, rfl, rfl, ?_⟩
          · rw [expWarnings_append]
            simp [canonAfter, hfh, warnOf]
          · rw [expErrors_append, readFails_eq f hopen', hre]
            simp
          · simp
          · rw [anyReadable_append, readFails_eq f hopen', hre]
            simp
          · rw [hfhapp]
            refine ⟨?_, rfl, ?_, rfl⟩
            · simp [allDataOf_append]
            · simp [allDataOf_append]
        · have hre' : readErrTriggered f = false := by simpa using hre
          simp only [hre', if_false, Bool.false_eq_true, reduceIte]
          refine ⟨rfl, hfhapp.symm, hfhapp.symm, ?_, ?_, ?_, ?_, rfl, rfl, ?_⟩
          · rw [expWarnings_append]
            simp [canonAfter, hfh, warnOf]
          · rw [expErrors_append, readFails_eq f hopen', hre']
            simp
          · simp
          · rw [anyReadable_append, readFails_eq f hopen', hre']
            simp
          · rw [hfhapp]
            refine ⟨?_, rfl, ?_, rfl⟩
            · simp [allDataOf_append]
            · simp [allDataOf_append]

theorem inv_init (ft : FileType) (n : Nat) (oP : String) :
    Inv ft n oP [] (initState ft n) :=
  ⟨rfl, rfl, rfl, rfl, rfl, rfl, rfl, rfl, rfl, rfl, rfl, rfl, rfl⟩

theorem foldl_processFile_inv (cfg : OutConfig) (hc : cfg.createFails = false)
    (hb : cfg.writeBudget = none) (oP : String) (ft : FileType) (n : Nat) :
    ∀ (files done : List MFile) (st : GState), Inv ft n oP done st →
      Inv ft n oP (done ++ files) (files.foldl (processFile cfg oP) st) := by
  intro files
  induction files with
  | nil =>
    intro done st h
    simpa using h
  | cons f fs ih =>
    intro done st h
    have h1 := processFile_step cfg hc hb oP ft n done f st h
    have h2 := ih (done ++ [f]) _ h1
    simpa [List.append_assoc] using h2

/-- Master theorem: under a never-failing output device, a group combine is
fully described by the spec-side functions. -/
theorem combine_group_run (cfg : OutConfig) (hc : cfg.createFails = false)
    (hb : cfg.writeBudget = none) (ft : FileType) (files : List MFile)
    (oP : String) :
    combine_group_with_progress cfg ft files oP
      = ⟨specSummary ft oP files,
         if files.isEmpty = true then none else finalOutput files,
         files.map MFile.path, false⟩ := by
  cases files with
  | nil =>
    simp [combine_group_with_progress, specSummary, specOutputPath,
      initSummary, allDataOf, expErrors, expWarnings, firstHeaderOf]
  | cons f fs =>
    have hinv := foldl_processFile_inv cfg hc hb oP ft (f :: fs).length
      (f :: fs) [] (initState ft (f :: fs).length)
      (inv_init ft (f :: fs).length oP)
    rw [List.nil_append] at hinv
    rw [show combine_group_with_progress cfg ft (f :: fs) oP
        = (let st := groupEpilogue cfg oP
            ((f :: fs).foldl (processFile cfg oP) (initState ft (f :: fs).length))
           (⟨st.summary, st.writer, st.processed, st.aborted⟩ : GroupResult))
        from rfl]
    generalize hst : (f :: fs).foldl (processFile cfg oP)
      (initState ft (f :: fs).length) = st at hinv
    obtain ⟨sum, w, wd, hr, buf, saw, pr, ab⟩ := st
    obtain ⟨sft, sn, sop, sdl, shd, sws, ses⟩ := sum
    obtain ⟨hab, hhr, hshd, hws, hes, hpr, hsaw, hft, hn, hmode⟩ := hinv
    dsimp only at hab hhr hshd hws hes hpr hsaw hft hn hmode
    subst hab hhr hshd hws hes hpr hsaw hft hn
    cases hfh : firstHeaderOf (f :: fs) with
    | some h =>
      rw [hfh] at hmode
      dsimp only at hmode
      obtain ⟨hw, hbuf, hdl, hop⟩ := hmode
      subst hw hbuf hdl hop
      simp only [groupEpilogue]
      simp [specSummary, specOutputPath, finalOutput, hfh]
    | none =>
      rw [hfh] at hmode
      dsimp only at hmode
      obtain ⟨hw, hbuf, hdl, hop⟩ := hmode
      subst hw hbuf hdl hop
      by_cases hdata : (allDataOf (f :: fs)).isEmpty = true
      · have hdata' : allDataOf (f :: fs) = [] := by
          simpa [List.isEmpty_iff] using hdata
        cases hsawv : anyReadable (f :: fs) with
        | true =>
          simp only [groupEpilogue, hdata']
          simp [ensure_output_writer, hc, hsawv, specSummary, specOutputPath,
            finalOutput, hfh, hdata']
        | false =>
          simp only [groupEpilogue, hdata']
          simp [ensure_output_writer, hc, hsawv, specSummary, specOutputPath,
            finalOutput, hfh, hdata']
      · have hne : (allDataOf (f :: fs)).isEmpty = false := by
          simpa using hdata
        simp only [groupEpilogue, hne, ensure_output_writer, hc]
        simp only [Option.isNone_none, Bool.true_and, Bool.not_false,
          Bool.false_eq_true, reduceIte, if_true, if_false]
        rw [flushLines_noFail cfg hb]
        simp [specSummary, specOutputPath, finalOutput, hfh, hne]

theorem expWarnings_append2 (ys : List MFile) :
    ∀ (xs : List MFile) (canon : Option (List Byte)),
    expWarnings canon (xs ++ ys)
      = expWarnings canon xs ++ expWarnings (canonAfter canon xs) ys := by
  intro xs
  induction xs with
  | nil =>
    intro canon
    cases canon <;> simp [expWarnings, canonAfter, firstHeaderOf]
  | cons g xs ih =>
    intro canon
    cases canon with
    | none =>
      rw [List.cons_append]
      show expWarnings (headerOf g) (xs ++ ys) = _
      rw [ih (headerOf g)]
      have : canonAfter none (g :: xs) = canonAfter (headerOf g) xs := by
        cases hg : headerOf g <;> simp [canonAfter, firstHeaderOf_cons, hg]
      rw [this]
      rfl
    | some h =>
      rw [List.cons_append]
      show (_ ++ expWarnings (some h) (xs ++ ys)) = _
      rw [ih (some h)]
      simp [canonAfter, expWarnings, List.append_assoc]

theorem expErrors_mem (files : List MFile) (g : MFile) (hg : g ∈ files)
    (hf : readFails g = true) :
    (⟨some g.path, "Failed to read file"⟩ : Error) ∈ expErrors files := by
  induction files with
  | nil => cases hg
  | cons f fs ih =>
    have : expErrors (f :: fs)
        = (if readFails f = true then [⟨some f.path, "Failed to read file"⟩]
           else ([] : List Error)) ++ expErrors fs := by
      simp [expErrors]
    rw [this]
    rcases List.mem_cons.mp hg with hgf | hgfs
    · subst hgf
      simp [hf]
    · exact List.mem_append_right _ (ih hgfs)

theorem allUnreadable_foldl (cfg : OutConfig) (oP : String) :
    ∀ (files : List MFile) (st : GState), (∀ g ∈ files, g.failsOpen = true) →
    st.aborted = false → st.writer = none → st.buffered = [] →
    st.sawReadable = false → st.headerRef = none →
    (files.foldl (processFile cfg oP) st).writer = none ∧
    (files.foldl (processFile cfg oP) st).buffered = [] ∧
    (files.foldl (processFile cfg oP) st).sawReadable = false ∧
    (files.foldl (processFile cfg oP) st).headerRef = none ∧
    (files.foldl (processFile cfg oP) st).aborted = false ∧
    (files.foldl (processFile cfg oP) st).summary.output_path
      = st.summary.output_path := by
  intro files
  induction files with
  | nil =>
    intro st hall hab hw hbuf hsaw hhr
    exact ⟨hw, hbuf, hsaw, hhr, hab, rfl⟩
  | cons f fs ih =>
    intro st hall hab hw hbuf hsaw hhr
    have hopen : f.failsOpen = true := hall f (by simp)
    have hstep : processFile cfg oP st f
        = { st with
            summary := { st.summary with errors :=
              st.summary.errors ++ [⟨some f.path, "Failed to read file"⟩] },
            processed := st.processed ++ [f.path] } := by
      simp [processFile, hab, hopen]
    rw [List.foldl_cons, hstep]
    exact ih _ (fun g hg => hall g (by simp [hg])) hab hw hbuf hsaw hhr

/-- Any group combine where every input file fails to open never touches the
output device: no output file, no output path, regardless of the device. -/
theorem combine_group_allUnreadable (cfg : OutConfig) (ft : FileType)
    (files : List MFile) (oP : String) (hall : ∀ g ∈ files, g.failsOpen = true) :
    (combine_group_with_progress cfg ft files oP).output = none ∧
    (combine_group_with_progress cfg ft files oP).summary.output_path = none := by
  cases files with
  | nil => exact ⟨rfl, rfl⟩
  | cons f fs =>
    have h := allUnreadable_foldl cfg oP (f :: fs) (initState ft (f :: fs).length)
      hall rfl rfl rfl rfl rfl
    rw [show combine_group_with_progress cfg ft (f :: fs) oP
        = (let st := groupEpilogue cfg oP
            ((f :: fs).foldl (processFile cfg oP) (initState ft (f :: fs).length))
           (⟨st.summary, st.writer, st.processed, st.aborted⟩ : GroupResult))
        from rfl]
    generalize hst : (f :: fs).foldl (processFile cfg oP)
      (initState ft (f :: fs).length) = st at h
    obtain ⟨hw, hbuf, hsaw, hhr, hab, hop⟩ := h
    have hepi : groupEpilogue cfg oP st = st := by
      simp [groupEpilogue, hab, hw, hbuf, hsaw, hhr]
    simp [hepi, hw, hop]
    rfl

/-! The claim theorems. -/

/-- C7: when the directory cannot be listed, the folder run returns a report
with zero counts for both categories, no group summaries, and exactly one
folder-level error with no file association; no combining happens, no events
are emitted, and no output file is created. -/
theorem C7_unlistable_folder (folder : String) (cfgBead cfgMotor : OutConfig) :
    combine_folder_with_progress folder MFolder.unlistable cfgBead cfgMotor
      = ⟨⟨folder, 0, 0, none, none, [⟨none, "Failed to scan folder"⟩]⟩,
         [], none, none⟩ := rfl

/-- C2: for every file list (all files readable, output device reliable),
the canonical header is the header of the first file in list order that has
one; when it exists, the output is exactly that header followed by all data
lines, files in list order, data of earlier headerless files included right
after the header; `data_lines` counts exactly the data lines. -/
theorem C2_first_header_canonical (cfg : OutConfig) (ft : FileType)
    (files : List MFile) (oP : String)
    (hc : cfg.createFails = false) (hb : cfg.writeBudget = none) :
    (combine_group_with_progress cfg ft files oP).summary.header
      = firstHeaderOf files ∧
    (∀ hd, firstHeaderOf files = some hd →
      (combine_group_with_progress cfg ft files oP).output
          = some (hd :: allDataOf files) ∧
      (combine_group_with_progress cfg ft files oP).summary.data_lines
          = (allDataOf files).length) := by
  rw [combine_group_run cfg hc hb]
  refine ⟨rfl, ?_⟩
  intro hd hhd
  cases files with
  | nil => simp [firstHeaderOf] at hhd
  | cons f fs => simp [finalOutput, hhd, specSummary]

theorem C2_witness :
    (combine_group_with_progress ⟨false, none⟩ FileType.Bead
        [wFileA, wFileB, wFileC] "out.txt").output
      = some [[35, 72, 49], [49], [50], [51], [52]] ∧
    (combine_group_with_progress ⟨false, none⟩ FileType.Bead
        [wFileA, wFileB, wFileC] "out.txt").summary.data_lines = 4 ∧
    (combine_group_with_progress ⟨false, none⟩ FileType.Bead
        [wFileA, wFileB, wFileC] "out.txt").summary.warnings
      = [⟨"C.txt", "Header mismatch"⟩] ∧
    (combine_group_with_progress ⟨false, none⟩ FileType.Bead
        [wFileA, wFileB, wFileC] "out.txt").summary.header
      = some [35, 72, 49] := by
  have h := C2_first_header_canonical ⟨false, none⟩ FileType.Bead
    [wFileA, wFileB, wFileC] "out.txt" rfl rfl
  have h2 := h.2 [35, 72, 49] (by decide)
  exact ⟨h2.1.trans (by decide), by decide, by decide, by decide⟩

/-- C3: under a reliable output device and readable files, the warning list
is exactly the mismatch scan: once the canonical header is fixed, every
later file whose own header differs byte-for-byte contributes exactly one
`Header mismatch` warning naming that file, files with an identical or no
header contribute none, the canonical header is never altered, processing
never aborts, and every file's data lines are still appended. -/
theorem C3_header_mismatch_policy (cfg : OutConfig) (ft : FileType)
    (files : List MFile) (oP : String)
    (hc : cfg.createFails = false) (hb : cfg.writeBudget = none) :
    (combine_group_with_progress cfg ft files oP).summary.warnings
      = expWarnings none files ∧
    (combine_group_with_progress cfg ft files oP).summary.header
      = firstHeaderOf files ∧
    (combine_group_with_progress cfg ft files oP).aborted = false ∧
    (∀ hd, firstHeaderOf files = some hd →
      (combine_group_with_progress cfg ft files oP).output
        = some (hd :: allDataOf files)) ∧
    (∀ (pre : List MFile) (g : MFile) (post : List MFile) (hd : List Byte),
      files = pre ++ g :: post → firstHeaderOf pre = some hd →
      expWarnings none files
        = expWarnings none pre ++ mismatchWarn g.path hd (headerOf g)
            ++ expWarnings (some hd) post) := by
  rw [combine_group_run cfg hc hb]
  refine ⟨rfl, rfl, rfl, ?_, ?_⟩
  · intro hd hhd
    cases files with
    | nil => simp [firstHeaderOf] at hhd
    | cons f fs => simp [finalOutput, hhd]
  · intro pre g post hd hsplit hpre
    subst hsplit
    rw [expWarnings_append2 (g :: post) pre none]
    have hca : canonAfter none pre = some hd := by simp [canonAfter, hpre]
    rw [hca, List.append_assoc]
    congr 1
    cases hg : headerOf g with
    | none => simp [expWarnings, mismatchWarn, hg]
    | some x =>
      by_cases hxh : x = hd
      · subst hxh
        simp [expWarnings, mismatchWarn, hg]
      · simp [expWarnings, mismatchWarn, hg, hxh]

theorem C3_witness :
    (combine_group_with_progress ⟨false, none⟩ FileType.Motor
        [wFileB, wFileC] "out.txt").summary.warnings
      = [⟨"C.txt", "Header mismatch"⟩] ∧
    (combine_group_with_progress ⟨false, none⟩ FileType.Motor
        [wFileB, wFileB, wFileC] "out.txt").summary.warnings
      = [⟨"C.txt", "Header mismatch"⟩] ∧
    (combine_group_with_progress ⟨false, none⟩ FileType.Motor
        [wFileB, wFileC] "out.txt").summary.header = some [35, 72, 49] ∧
    (combine_group_with_progress ⟨false, none⟩ FileType.Motor
        [wFileB, wFileC] "out.txt").output
      = some [[35, 72, 49], [51], [52]] := by
  have h1 := C3_header_mismatch_policy ⟨false, none⟩ FileType.Motor
    [wFileB, wFileC] "out.txt" rfl rfl
  exact ⟨h1.1.trans (by decide), by decide,
    h1.2.1.trans (by decide), (h1.2.2.2.1 [35, 72, 49] (by decide)).trans (by decide)⟩

/-- C9: line normalization strips a trailing newline and, when present
immediately before it, a carriage return; blank (all-whitespace) lines are
skipped entirely and never become header or data, so a file whose non-blank
content is a single non-hash line contributes exactly one data line and no
header. -/
theorem C9_line_normalization :
    (∀ l : List Byte, l.getLast? ≠ some 13 → trim_line_end (l ++ [10]) = l) ∧
    (∀ l : List Byte, trim_line_end (l ++ [13, 10]) = l) ∧
    (∀ (cfg : OutConfig) (ft : FileType) (f : MFile) (oP : String)
       (d : List Byte),
      cfg.createFails = false → cfg.writeBudget = none →
      nbLines f = [d] → starts_with_hash d = false → f.failsOpen = false →
      (combine_group_with_progress cfg ft [f] oP).summary.header = none ∧
      (combine_group_with_progress cfg ft [f] oP).summary.data_lines = 1 ∧
      (combine_group_with_progress cfg ft [f] oP).output = some [d]) := by
  refine ⟨?_, ?_, ?_⟩
  · intro l hl
    rw [trim_line_end]
    rw [if_pos (by simp [List.getLast?_concat])]
    simp only [List.dropLast_concat]
    rw [if_neg (by simpa using hl)]
  · intro l
    rw [show l ++ [13, 10] = (l ++ [13]) ++ [10] by simp]
    rw [trim_line_end]
    rw [if_pos (by simp [List.getLast?_concat])]
    simp only [List.dropLast_concat]
    rw [if_pos (by simp [List.getLast?_concat])]
  · intro cfg ft f oP d hc hb hnb hhash _hopen
    have hhf : headerOf f = none := by
      rw [headerOf_eq_find, hnb]
      simp [List.find?, hhash]
    have hdf : dataOf f = [d] := by
      rw [← remove_nbLines_eq, hnb, removeFirstHash_cons _ hhash]
      rfl
    have hfh : firstHeaderOf [f] = none := by
      rw [firstHeaderOf_cons, hhf]
      rfl
    have hall : allDataOf [f] = [d] := by
      simp [allDataOf, hdf]
    rw [combine_group_run cfg hc hb]
    refine ⟨by simp [specSummary, hfh], by simp [specSummary, hall], ?_⟩
    simp [finalOutput, hfh, hall]

theorem C9_witness :
    trim_line_end [53, 10] = [53] ∧
    trim_line_end [53, 13, 10] = [53] ∧
    (combine_group_with_progress ⟨false, none⟩ FileType.Bead
        [wFileW] "out.txt").summary.header = none ∧
    (combine_group_with_progress ⟨false, none⟩ FileType.Bead
        [wFileW] "out.txt").summary.data_lines = 1 ∧
    (combine_group_with_progress ⟨false, none⟩ FileType.Bead
        [wFileW] "out.txt").output = some [[53]] := by
  obtain ⟨h1, h2, h3⟩ := C9_line_normalization
  have h4 := h3 ⟨false, none⟩ FileType.Bead wFileW "out.txt" [53]
    rfl rfl (by decide) (by decide) rfl
  exact ⟨h1 [53] (by decide), h2 [53], h4.1, h4.2.1, h4.2.2⟩

/-- C6: a file that fails to open or read is recorded as exactly one error
tagged with that file's path, the rest of that file is skipped, and the
group continues with the next file: no abort, every file still gets its
progress callback, and the lines of other files are still in the output. -/
theorem C6_read_failure_not_fatal (cfg : OutConfig) (ft : FileType)
    (files : List MFile) (oP : String)
    (hc : cfg.createFails = false) (hb : cfg.writeBudget = none) :
    (combine_group_with_progress cfg ft files oP).aborted = false ∧
    (combine_group_with_progress cfg ft files oP).summary.errors
      = expErrors files ∧
    (combine_group_with_progress cfg ft files oP).processed
      = files.map MFile.path ∧
    (∀ g ∈ files, readFails g = true →
      (⟨some g.path, "Failed to read file"⟩ : Error)
        ∈ (combine_group_with_progress cfg ft files oP).summary.errors) ∧
    (combine_group_with_progress cfg ft files oP).output
      = (if files.isEmpty = true then none else finalOutput files) ∧
    (∀ (cfg2 : OutConfig) (st : GState) (g : MFile),
      st.aborted = false → g.failsOpen = true →
      processFile cfg2 oP st g
        = { st with
            summary := { st.summary with errors :=
              st.summary.errors ++ [⟨some g.path, "Failed to read file"⟩] },
            processed := st.processed ++ [g.path] }) := by
  rw [combine_group_run cfg hc hb]
  refine ⟨rfl, rfl, rfl, ?_, rfl, ?_⟩
  · intro g hg hf
    exact expErrors_mem files g hg hf
  · intro cfg2 st g hab hopen
    simp [processFile, hab, hopen]

theorem C6_witness :
    (combine_group_with_progress ⟨false, none⟩ FileType.Bead
        [wFileB, ⟨"U.txt", true, [], none⟩, wFileC] "out.txt").aborted = false ∧
    (combine_group_with_progress ⟨false, none⟩ FileType.Bead
        [wFileB, ⟨"U.txt", true, [], none⟩, wFileC] "out.txt").summary.errors
      = [⟨some "U.txt", "Failed to read file"⟩] ∧
    (combine_group_with_progress ⟨false, none⟩ FileType.Bead
        [wFileB, ⟨"U.txt", true, [], none⟩, wFileC] "out.txt").processed
      = ["B.txt", "U.txt", "C.txt"] ∧
    (combine_group_with_progress ⟨false, none⟩ FileType.Bead
        [wFileB, ⟨"U.txt", true, [], none⟩, wFileC] "out.txt").output
      = some [[35, 72, 49], [51], [52]] := by
  have h := C6_read_failure_not_fatal ⟨false, none⟩ FileType.Bead
    [wFileB, ⟨"U.txt", true, [], none⟩, wFileC] "out.txt" rfl rfl
  exact ⟨h.1, h.2.1.trans (by decide), h.2.2.1.trans (by decide),
    h.2.2.2.2.1.trans (by decide)⟩

/-- C1 counterexample: a group whose single file is readable but completely
empty still creates the output file (with no lines in it) and reports
`output_path = Some`, contradicting the claimed equivalence between a set
`output_path` and at least one written line, and contradicting the claim
that a readable no-line file set never creates an output file on disk. -/
theorem C1_counterexample :
    (combine_group_with_progress ⟨false, none⟩ FileType.Bead
        [wFileEmpty] "out.txt").summary.output_path = some "out.txt" ∧
    (combine_group_with_progress ⟨false, none⟩ FileType.Bead
        [wFileEmpty] "out.txt").output = some [] ∧
    (combine_group_with_progress ⟨false, none⟩ FileType.Bead
        [wFileEmpty] "out.txt").summary.data_lines = 0 ∧
    (combine_group_with_progress ⟨false, none⟩ FileType.Bead
        [wFileEmpty] "out.txt").summary.header = none := by
  decide

/-- C1 (amended): `output_path` is Some exactly when the output file was
created, which happens exactly when at least one line (header or data) was
written or at least one file was read to completion without error (so a
readable but line-free file set creates an empty output file); an
entirely-unreadable file set never creates an output file, under any output
device. -/
theorem C1_output_path_iff (cfg : OutConfig) (ft : FileType)
    (files : List MFile) (oP : String)
    (hc : cfg.createFails = false) (hb : cfg.writeBudget = none) :
    ((combine_group_with_progress cfg ft files oP).summary.output_path.isSome
      = (combine_group_with_progress cfg ft files oP).output.isSome) ∧
    ((combine_group_with_progress cfg ft files oP).output.isSome = true ↔
      (files ≠ [] ∧ (firstHeaderOf files ≠ none ∨ allDataOf files ≠ []
        ∨ anyReadable files = true))) ∧
    (∀ cfg2 : OutConfig, (∀ g ∈ files, g.failsOpen = true) →
      (combine_group_with_progress cfg2 ft files oP).output = none ∧
      (combine_group_with_progress cfg2 ft files oP).summary.output_path
        = none) := by
  rw [combine_group_run cfg hc hb]
  refine ⟨?_, ?_, ?_⟩
  · cases files with
    | nil => rfl
    | cons f fs =>
      simp only [specSummary, specOutputPath]
      cases hout : finalOutput (f :: fs) <;> simp [hout]
  · cases files with
    | nil => simp
    | cons f fs =>
      simp only [List.isEmpty_cons, Bool.false_eq_true, if_false, reduceIte]
      cases hfh : firstHeaderOf (f :: fs) with
      | some h => simp [finalOutput, hfh]
      | none =>
        by_cases hdata : allDataOf (f :: fs) = []
        · cases hsaw : anyReadable (f :: fs) <;>
            simp [finalOutput, hfh, hdata, hsaw]
        · simp [finalOutput, hfh, hdata]
  · intro cfg2 hall
    exact combine_group_allUnreadable cfg2 ft files oP hall

theorem C1_amended_witness :
    ((combine_group_with_progress ⟨false, none⟩ FileType.Bead
        [wFileEmpty] "out.txt").summary.output_path.isSome
      = (combine_group_with_progress ⟨false, none⟩ FileType.Bead
        [wFileEmpty] "out.txt").output.isSome) ∧
    (combine_group_with_progress ⟨false, none⟩ FileType.Bead
        [⟨"U.txt", true, [], none⟩] "out.txt").output = none ∧
    (combine_group_with_progress ⟨false, none⟩ FileType.Bead
        [⟨"U.txt", true, [], none⟩] "out.txt").summary.output_path = none := by
  refine ⟨(C1_output_path_iff ⟨false, none⟩ FileType.Bead [wFileEmpty]
    "out.txt" rfl rfl).1, ?_⟩
  exact (C1_output_path_iff ⟨false, none⟩ FileType.Bead
    [⟨"U.txt", true, [], none⟩] "out.txt" rfl rfl).2.2 ⟨false, none⟩
    (by decide)

/-! Accounting of output-device failures: an abort happens exactly when one
error tagged with the output path (create or write failure) is recorded. -/

theorem taggedCount_nil (oP : String) : taggedCount oP [] = 0 := rfl

theorem taggedCount_append (oP : String) (a b : List Error) :
    taggedCount oP (a ++ b) = taggedCount oP a + taggedCount oP b := by
  simp [taggedCount, List.countP_append]

theorem ErrStep_rfl (oP : String) (st : GState) : ErrStep oP st st := by
  refine ⟨⟨[], by simp, ?_⟩, fun h => h, rfl⟩
  cases h : st.aborted <;> simp [taggedCount]

theorem ErrStep_same {oP : String} {st st' : GState}
    (he : st'.summary.errors = st.summary.errors)
    (ha : st'.aborted = st.aborted) (hp : st'.processed = st.processed) :
    ErrStep oP st st' := by
  refine ⟨⟨[], by simp [he], ?_⟩, fun h => ha.trans h, hp⟩
  rw [ha]
  cases h : st.aborted <;> simp [taggedCount]

theorem ErrStep_trans {oP : String} {s1 s2 s3 : GState}
    (h1 : ErrStep oP s1 s2) (h2 : ErrStep oP s2 s3) : ErrStep oP s1 s3 := by
  obtain ⟨⟨t1, he1, hc1⟩, hm1, hp1⟩ := h1
  obtain ⟨⟨t2, he2, hc2⟩, hm2, hp2⟩ := h2
  refine ⟨⟨t1 ++ t2, by rw [he2, he1, List.append_assoc], ?_⟩,
    fun h => hm2 (hm1 h), hp2.trans hp1⟩
  rw [taggedCount_append, hc1, hc2]
  cases ha1 : s1.aborted <;> cases ha2 : s2.aborted <;> cases ha3 : s3.aborted <;>
    simp_all

theorem pushOutputError_ErrStep (oP : String) (st : GState)
    (h : st.aborted = false) : ErrStep oP st (pushOutputError oP st) := by
  refine ⟨⟨[⟨some oP, "Failed to write output"⟩], rfl, ?_⟩, by intro hh; rfl, rfl⟩
  simp [pushOutputError, h, taggedCount, abortTagged]

theorem write_line_facts (cfg : OutConfig) (st : GState) (l : List Byte) :
    (write_line cfg st l).1.summary.errors = st.summary.errors ∧
    (write_line cfg st l).1.aborted = st.aborted ∧
    (write_line cfg st l).1.processed = st.processed := by
  by_cases hw : writeOk cfg st = true <;> simp [write_line, hw]

theorem flushLines_ErrStep (cfg : OutConfig) (oP : String) :
    ∀ (ls : List (List Byte)) (st : GState), st.aborted = false →
      ErrStep oP st (flushLines cfg oP st ls) := by
  intro ls
  induction ls with
  | nil => intro st _h; exact ErrStep_rfl oP st
  | cons l ls ih =>
    intro st h
    by_cases hw : writeOk cfg st = true
    · rw [show flushLines cfg oP st (l :: ls)
          = flushLines cfg oP
              (let st1 := (write_line cfg st l).1
               { st1 with summary :=
                  { st1.summary with data_lines := st1.summary.data_lines + 1 } }) ls by
            rw [flushLines, write_line, if_pos hw]]
      refine ErrStep_trans (ErrStep_same ?_ ?_ ?_) (ih _ ?_)
      · simp [write_line, hw]
      · simp [write_line, hw]
      · simp [write_line, hw]
      · simp [write_line, hw, h]
    · rw [show flushLines cfg oP st (l :: ls) = pushOutputError oP st by
        rw [flushLines, write_line, if_neg hw]]
      exact pushOutputError_ErrStep oP st h

theorem ErrStep_abort1 (oP msg : String) (st st' : GState)
    (hab : st.aborted = false) (ha' : st'.aborted = true)
    (hmsg : (msg == "Failed to create output"
        || msg == "Failed to write output") = true)
    (he : st'.summary.errors = st.summary.errors ++ [⟨some oP, msg⟩])
    (hp : st'.processed = st.processed) : ErrStep oP st st' := by
  refine ⟨⟨[⟨some oP, msg⟩], he, ?_⟩, fun _ => ha', hp⟩
  simp [ha', hab, taggedCount, abortTagged, hmsg]

theorem ensure_fail_eq (cfg : OutConfig) (oP : String) (st st1 : GState)
    (h : ensure_output_writer cfg oP st = (st1, false)) :
    st1 = { st with summary := { st.summary with errors :=
        st.summary.errors ++ [⟨some oP, "Failed to create output"⟩] } } := by
  rw [ensure_output_writer] at h
  cases hw : st.writer with
  | some w =>
    rw [hw] at h
    simp at h
  | none =>
    rw [hw] at h
    by_cases hcf : cfg.createFails = true
    · rw [if_pos hcf] at h
      injection h with h1 _
      exact h1.symm
    · rw [if_neg hcf] at h
      simp at h

theorem ensure_ok_facts (cfg : OutConfig) (oP : String) (st st1 : GState)
    (h : ensure_output_writer cfg oP st = (st1, true)) :
    st1.summary.errors = st.summary.errors ∧ st1.aborted = st.aborted ∧
    st1.processed = st.processed := by
  rw [ensure_output_writer] at h
  cases hw : st.writer with
  | some w =>
    rw [hw] at h
    injection h with h1 _
    subst h1
    exact ⟨rfl, rfl, rfl⟩
  | none =>
    rw [hw] at h
    by_cases hcf : cfg.createFails = true
    · rw [if_pos hcf] at h
      simp at h
    · rw [if_neg hcf] at h
      injection h with h1 _
      subst h1
      exact ⟨rfl, rfl, rfl⟩

theorem processLine_ErrStep (cfg : OutConfig) (oP fp : String) (st : GState)
    (fh : Option (List Byte)) (l : List Byte) :
    ErrStep oP st (processLine cfg oP fp st fh l).1 := by
  by_cases hab : st.aborted = true
  · rw [processLine, if_pos hab]
    exact ErrStep_rfl oP st
  have hab' : st.aborted = false := by simpa using hab
  by_cases hwl : is_whitespace_line l = true
  · rw [processLine, if_neg hab, if_pos hwl]
    exact ErrStep_rfl oP st
  by_cases hhc : (fh.isNone && starts_with_hash l) = true
  · rw [processLine, if_neg hab, if_neg hwl, if_pos hhc]
    rcases hens : ensure_output_writer cfg oP st with ⟨st1, b⟩
    cases b with
    | false =>
      dsimp only
      have h1 := ensure_fail_eq cfg oP st st1 hens
      subst h1
      exact ErrStep_abort1 oP "Failed to create output" st _ hab' rfl
        (by decide) rfl rfl
    | true =>
      dsimp only
      obtain ⟨he1, ha1, hp1⟩ := ensure_ok_facts cfg oP st st1 hens
      by_cases hhr : st1.headerRef.isNone = true
      · rw [if_pos hhr]
        rcases hwr : write_line cfg
            { st1 with headerRef := some l,
                       summary := { st1.summary with header := some l } } l
          with ⟨st3, b2⟩
        have hwf := write_line_facts cfg
          { st1 with headerRef := some l,
                     summary := { st1.summary with header := some l } } l
        rw [hwr] at hwf
        dsimp only at hwf
        obtain ⟨he3, ha3, hp3⟩ := hwf
        cases b2 with
        | false =>
          dsimp only
          exact ErrStep_abort1 oP "Failed to write output" st _ hab' rfl
            (by decide)
            (by simp [pushOutputError, he3, he1])
            (by simp [pushOutputError, hp3, hp1])
        | true =>
          dsimp only
          have hstep1 : ErrStep oP st st3 :=
            ErrStep_same (by simp [he3, he1]) (by simp [ha3, ha1])
              (by simp [hp3, hp1])
          have hab3 : st3.aborted = false := by simp [ha3, ha1, hab']
          have hstep2 := flushLines_ErrStep cfg oP st3.buffered st3 hab3
          refine ErrStep_trans (ErrStep_trans hstep1 hstep2)
            (ErrStep_same rfl rfl rfl)
      · rw [if_neg hhr]
        by_cases hne : st1.headerRef ≠ some l
        · rw [if_pos hne]
          exact ErrStep_same (by simp [he1]) (by simp [ha1]) (by simp [hp1])
        · rw [if_neg hne]
          exact ErrStep_same he1 ha1 hp1
  · rw [processLine, if_neg hab, if_neg hwl, if_neg hhc]
    by_cases hhrN : st.headerRef.isNone = true
    · rw [if_pos hhrN]
      exact ErrStep_same rfl rfl rfl
    · rw [if_neg hhrN]
      rcases hens : ensure_output_writer cfg oP st with ⟨st1, b⟩
      cases b with
      | false =>
        dsimp only
        have h1 := ensure_fail_eq cfg oP st st1 hens
        subst h1
        exact ErrStep_abort1 oP "Failed to create output" st _ hab' rfl
          (by decide) rfl rfl
      | true =>
        dsimp only
        obtain ⟨he1, ha1, hp1⟩ := ensure_ok_facts cfg oP st st1 hens
        rcases hwr : write_line cfg st1 l with ⟨st2, b2⟩
        have hwf := write_line_facts cfg st1 l
        rw [hwr] at hwf
        dsimp only at hwf
        obtain ⟨he2, ha2, hp2⟩ := hwf
        cases b2 with
        | false =>
          dsimp only
          exact ErrStep_abort1 oP "Failed to write output" st _ hab' rfl
            (by decide)
            (by simp [pushOutputError, he2, he1])
            (by simp [pushOutputError, hp2, hp1])
        | true =>
          dsimp only
          exact ErrStep_same (by simp [he2, he1]) (by simp [ha2, ha1])
            (by simp [hp2, hp1])

theorem processLines_ErrStep (cfg : OutConfig) (oP fp : String) :
    ∀ (ls : List (List Byte)) (st : GState) (fh : Option (List Byte)),
      ErrStep oP st (processLines cfg oP fp st fh ls) := by
  intro ls
  induction ls with
  | nil => intro st fh; exact ErrStep_rfl oP st
  | cons l ls ih =>
    intro st fh
    rw [processLines]
    exact ErrStep_trans (processLine_ErrStep cfg oP fp st fh l) (ih _ _)

theorem AbortOk_of_ErrStep {oP : String} {st st' : GState}
    (h : ErrStep oP st st') : AbortOk oP st st' :=
  ⟨h.1, h.2.1⟩

theorem AbortOk_trans {oP : String} {s1 s2 s3 : GState}
    (h1 : AbortOk oP s1 s2) (h2 : AbortOk oP s2 s3) : AbortOk oP s1 s3 := by
  obtain ⟨⟨t1, he1, hc1⟩, hm1⟩ := h1
  obtain ⟨⟨t2, he2, hc2⟩, hm2⟩ := h2
  refine ⟨⟨t1 ++ t2, by rw [he2, he1, List.append_assoc], ?_⟩,
    fun h => hm2 (hm1 h)⟩
  rw [taggedCount_append, hc1, hc2]
  cases ha1 : s1.aborted <;> cases ha2 : s2.aborted <;> cases ha3 : s3.aborted <;>
    simp_all

theorem processFile_absorb (cfg : OutConfig) (oP : String) (st : GState)
    (f : MFile) (h : st.aborted = true) : processFile cfg oP st f = st := by
  rw [processFile, if_pos h]

theorem processFile_facts (cfg : OutConfig) (oP : String) (st : GState)
    (f : MFile) :
    AbortOk oP st (processFile cfg oP st f) ∧
    (((processFile cfg oP st f).processed = st.processed ++ [f.path] ∧
        (processFile cfg oP st f).aborted = st.aborted) ∨
     ((processFile cfg oP st f).processed = st.processed ∧
        (processFile cfg oP st f).aborted = true)) := by
  by_cases hab : st.aborted = true
  · rw [processFile_absorb cfg oP st f hab]
    refine ⟨⟨⟨[], by simp, by simp [hab, taggedCount]⟩, fun h => h⟩,
      Or.inr ⟨rfl, hab⟩⟩
  have hab' : st.aborted = false := by simpa using hab
  by_cases hopen : f.failsOpen = true
  · have h0 : processFile cfg oP st f
        = { st with
            summary := { st.summary with errors :=
              st.summary.errors ++ [⟨some f.path, "Failed to read file"⟩] },
            processed := st.processed ++ [f.path] } := by
      rw [processFile, if_neg hab, if_pos hopen]
    rw [h0]
    refine ⟨⟨⟨[⟨some f.path, "Failed to read file"⟩], rfl, ?_⟩,
      fun h => absurd h hab⟩, Or.inl ⟨rfl, rfl⟩⟩
    simp [hab', taggedCount, abortTagged]
  · have hstep := processLines_ErrStep cfg oP f.path (effLines f) st none
    obtain ⟨⟨t1, he1, hc1⟩, hm1, hp1⟩ := hstep
    by_cases hab1 : (processLines cfg oP f.path st none (effLines f)).aborted = true
    · have h0 : processFile cfg oP st f
          = processLines cfg oP f.path st none (effLines f) := by
        rw [processFile, if_neg hab, if_neg hopen]
        dsimp only
        rw [if_pos hab1]
      rw [h0]
      exact ⟨⟨⟨t1, he1, hc1⟩, hm1⟩, Or.inr ⟨hp1, hab1⟩⟩
    · have hab1' : (processLines cfg oP f.path st none (effLines f)).aborted
          = false := by simpa using hab1
      by_cases hre : readErrTriggered f = true
      · have h0 : processFile cfg oP st f
            = { (processLines cfg oP f.path st none (effLines f)) with
                summary := { (processLines cfg oP f.path st none
                    (effLines f)).summary with errors :=
                  (processLines cfg oP f.path st none
                    (effLines f)).summary.errors
                    ++ [⟨some f.path, "Failed to read file"⟩] },
                processed := (processLines cfg oP f.path st none
                  (effLines f)).processed ++ [f.path] } := by
          rw [processFile, if_neg hab, if_neg hopen]
          dsimp only
          rw [if_neg hab1, if_pos hre]
        rw [h0]
        refine ⟨⟨⟨t1 ++ [⟨some f.path, "Failed to read file"⟩], ?_, ?_⟩,
          fun h => absurd h hab⟩, Or.inl ⟨by rw [hp1], hab1'.trans hab'.symm⟩⟩
        · dsimp only
          rw [he1, List.append_assoc]
        · rw [taggedCount_append, hc1]
          simp [hab1', hab', taggedCount, abortTagged]
      · have h0 : processFile cfg oP st f
            = { (processLines cfg oP f.path st none (effLines f)) with
                sawReadable := true,
                processed := (processLines cfg oP f.path st none
                  (effLines f)).processed ++ [f.path] } := by
          rw [processFile, if_neg hab, if_neg hopen]
          dsimp only
          rw [if_neg hab1, if_neg hre]
        rw [h0]
        refine ⟨⟨⟨t1, by dsimp only; rw [he1], ?_⟩, fun h => absurd h hab⟩,
          Or.inl ⟨by rw [hp1], hab1'.trans hab'.symm⟩⟩
        rw [hc1]

theorem foldl_absorb (cfg : OutConfig) (oP : String) :
    ∀ (files : List MFile) (st : GState), st.aborted = true →
      files.foldl (processFile cfg oP) st = st := by
  intro files
  induction files with
  | nil => intro st _h; rfl
  | cons f fs ih =>
    intro st h
    rw [List.foldl_cons, processFile_absorb cfg oP st f h, ih st h]

theorem foldl_AbortOk (cfg : OutConfig) (oP : String) :
    ∀ (files : List MFile) (st : GState),
      AbortOk oP st (files.foldl (processFile cfg oP) st) := by
  intro files
  induction files with
  | nil =>
    intro st
    exact ⟨⟨[], by simp, by cases h : st.aborted <;> simp [taggedCount, h]⟩,
      fun h => h⟩
  | cons f fs ih =>
    intro st
    rw [List.foldl_cons]
    exact AbortOk_trans (processFile_facts cfg oP st f).1 (ih _)

theorem foldl_processed (cfg : OutConfig) (oP : String) :
    ∀ (files : List MFile) (st : GState),
      ∃ n, (files.foldl (processFile cfg oP) st).processed
          = st.processed ++ (files.take n).map MFile.path ∧
        n ≤ files.length := by
  intro files
  induction files with
  | nil => intro st; exact ⟨0, by simp, by simp⟩
  | cons f fs ih =>
    intro st
    rw [List.foldl_cons]
    rcases (processFile_facts cfg oP st f).2 with ⟨hp, _hab⟩ | ⟨hp, hab⟩
    · obtain ⟨n, hn, hnle⟩ := ih (processFile cfg oP st f)
      refine ⟨n + 1, ?_, by simpa using hnle⟩
      rw [hn, hp]
      simp [List.append_assoc]
    · rw [foldl_absorb cfg oP fs _ hab]
      exact ⟨0, by simp [hp], by simp⟩

theorem groupEpilogue_ErrStep (cfg : OutConfig) (oP : String) (st : GState) :
    ErrStep oP st (groupEpilogue cfg oP st) := by
  rw [groupEpilogue]
  by_cases hab : st.aborted = true
  · rw [if_pos hab, if_pos hab]
    exact ErrStep_rfl oP st
  have hab' : st.aborted = false := by simpa using hab
  rw [if_neg hab]
  have hfirst : ∀ st2 : GState, ErrStep oP st st2 →
      ErrStep oP st
        (if st2.aborted = true then st2
         else if (st2.writer.isNone && st2.sawReadable) = true then
           match ensure_output_writer cfg oP st2 with
           | (st1, false) => { st1 with aborted := true }
           | (st1, true) => st1
         else st2) := by
    intro st2 h2
    by_cases hab2 : st2.aborted = true
    · rw [if_pos hab2]
      exact h2
    rw [if_neg hab2]
    have hab2' : st2.aborted = false := by simpa using hab2
    by_cases hcond : (st2.writer.isNone && st2.sawReadable) = true
    · rw [if_pos hcond]
      rcases hens : ensure_output_writer cfg oP st2 with ⟨st1, b⟩
      cases b with
      | false =>
        dsimp only
        have h1 := ensure_fail_eq cfg oP st2 st1 hens
        subst h1
        exact ErrStep_trans h2
          (ErrStep_abort1 oP "Failed to create output" st2 _ hab2' rfl
            (by decide) rfl rfl)
      | true =>
        dsimp only
        obtain ⟨he1, ha1, hp1⟩ := ensure_ok_facts cfg oP st2 st1 hens
        exact ErrStep_trans h2 (ErrStep_same he1 ha1 hp1)
    · rw [if_neg hcond]
      exact h2
  by_cases hcond1 : (st.headerRef.isNone && !st.buffered.isEmpty) = true
  · rw [if_pos hcond1]
    rcases hens : ensure_output_writer cfg oP st with ⟨st1, b⟩
    cases b with
    | false =>
      dsimp only
      have h1 := ensure_fail_eq cfg oP st st1 hens
      subst h1
      rw [if_pos rfl]
      exact ErrStep_abort1 oP "Failed to create output" st _ hab' rfl
        (by decide) rfl rfl
    | true =>
      dsimp only
      obtain ⟨he1, ha1, hp1⟩ := ensure_ok_facts cfg oP st st1 hens
      have hab1 : st1.aborted = false := by rw [ha1]; exact hab'
      exact hfirst
        { flushLines cfg oP st1 st1.buffered with buffered := [] }
        (ErrStep_trans (ErrStep_same he1 ha1 hp1)
          (ErrStep_trans (flushLines_ErrStep cfg oP st1.buffered st1 hab1)
            (ErrStep_same rfl rfl rfl)))
  · rw [if_neg hcond1]
    exact hfirst st (ErrStep_rfl oP st)

theorem groupEpilogue_absorb (cfg : OutConfig) (oP : String) (st : GState)
    (h : st.aborted = true) : groupEpilogue cfg oP st = st := by
  rw [groupEpilogue, if_pos h, if_pos h]

/-- Accounting over a whole group combine: the error list carries exactly
one output-tagged (create or write failure) error when the group aborted and
none otherwise, and the progress log is always the path list of a prefix of
the input files. -/
theorem combine_group_abort_facts (cfg : OutConfig) (ft : FileType)
    (files : List MFile) (oP : String) :
    taggedCount oP
        (combine_group_with_progress cfg ft files oP).summary.errors
      = (if (combine_group_with_progress cfg ft files oP).aborted = true
         then 1 else 0) ∧
    (∃ n, (combine_group_with_progress cfg ft files oP).processed
        = (files.take n).map MFile.path ∧ n ≤ files.length) := by
  cases hfe : files.isEmpty with
  | true =>
    have : files = [] := by simpa [List.isEmpty_iff] using hfe
    subst this
    exact ⟨rfl, ⟨0, rfl, by simp⟩⟩
  | false =>
    have hres : combine_group_with_progress cfg ft files oP
        = (let st := groupEpilogue cfg oP
            (files.foldl (processFile cfg oP) (initState ft files.length))
           (⟨st.summary, st.writer, st.processed, st.aborted⟩ : GroupResult)) := by
      rw [combine_group_with_progress, hfe]
      simp
    rw [hres]
    have h1 := foldl_AbortOk cfg oP files (initState ft files.length)
    have h2 := groupEpilogue_ErrStep cfg oP
      (files.foldl (processFile cfg oP) (initState ft files.length))
    have h3 := AbortOk_trans h1 (AbortOk_of_ErrStep h2)
    obtain ⟨⟨t, he, hc⟩, _hm⟩ := h3
    constructor
    · dsimp only
      rw [he]
      show taggedCount oP ([] ++ t) = _
      rw [List.nil_append, hc]
      simp [initState]
    · obtain ⟨n, hn, hnle⟩ := foldl_processed cfg oP files (initState ft files.length)
      refine ⟨n, ?_, hnle⟩
      dsimp only
      rw [h2.2.2, hn]
      rfl

/-- C4: if creating or writing the output fails, the group records exactly
one error tagged with the output path (a create or write failure message)
and aborts immediately: its progress log is the path list of a prefix of
the input files, an aborted state absorbs all further files, and a run that
did not abort carries no output-tagged error; the other category's group is
computed independently of this category's output device. -/
theorem C4_write_failure_aborts (cfg : OutConfig) (ft : FileType)
    (files : List MFile) (oP : String) :
    ((combine_group_with_progress cfg ft files oP).aborted = true →
      taggedCount oP
          (combine_group_with_progress cfg ft files oP).summary.errors = 1 ∧
      ∃ e ∈ (combine_group_with_progress cfg ft files oP).summary.errors,
        abortTagged oP e = true) ∧
    ((combine_group_with_progress cfg ft files oP).aborted = false →
      taggedCount oP
          (combine_group_with_progress cfg ft files oP).summary.errors = 0) ∧
    (∀ (st : GState) (f : MFile), st.aborted = true →
      processFile cfg oP st f = st) ∧
    (∃ n, (combine_group_with_progress cfg ft files oP).processed
        = (files.take n).map MFile.path ∧ n ≤ files.length) ∧
    (∀ (folder : String) (es : List DirEntry) (cfgB cfgB2 cfgM : OutConfig),
      (combine_folder_with_progress folder (MFolder.entries es) cfgB
          cfgM).report.motor
        = (combine_folder_with_progress folder (MFolder.entries es) cfgB2
            cfgM).report.motor ∧
      (combine_folder_with_progress folder (MFolder.entries es) cfgB
          cfgM).motorOut
        = (combine_folder_with_progress folder (MFolder.entries es) cfgB2
            cfgM).motorOut) := by
  obtain ⟨hcount, hproc⟩ := combine_group_abort_facts cfg ft files oP
  refine ⟨?_, ?_, processFile_absorb cfg oP, hproc, ?_⟩
  · intro hab
    rw [hab] at hcount
    simp only [if_pos rfl] at hcount
    refine ⟨hcount, ?_⟩
    have : 0 < taggedCount oP
        (combine_group_with_progress cfg ft files oP).summary.errors := by
      rw [hcount]
      exact Nat.one_pos
    rw [taggedCount] at this
    exact List.countP_pos_iff.mp this
  · intro hab
    rw [hab] at hcount
    simpa using hcount
  · intro folder es cfgB cfgB2 cfgM
    exact ⟨rfl, rfl⟩

theorem C4_witness :
    (combine_group_with_progress ⟨true, none⟩ FileType.Bead
        [wFileB, wFileC] "out.txt").aborted = true ∧
    taggedCount "out.txt"
        (combine_group_with_progress ⟨true, none⟩ FileType.Bead
          [wFileB, wFileC] "out.txt").summary.errors = 1 ∧
    (combine_group_with_progress ⟨true, none⟩ FileType.Bead
        [wFileB, wFileC] "out.txt").summary.errors
      = [⟨some "out.txt", "Failed to create output"⟩] ∧
    (combine_group_with_progress ⟨true, none⟩ FileType.Bead
        [wFileB, wFileC] "out.txt").processed = [] := by
  have h := C4_write_failure_aborts ⟨true, none⟩ FileType.Bead
    [wFileB, wFileC] "out.txt"
  exact ⟨by decide, (h.1 (by decide)).1, by decide, by decide⟩

/-! Discovery: sortedness of the name sort and the filter characterization. -/

theorem bytesLt_asymm : ∀ (a b : List Nat),
    bytesLt a b = true → bytesLt b a = false := by
  intro a
  induction a with
  | nil =>
    intro b h
    cases b with
    | nil => simp [bytesLt] at h
    | cons y ys => rfl
  | cons x xs ih =>
    intro b h
    cases b with
    | nil => simp [bytesLt] at h
    | cons y ys =>
      simp only [bytesLt, Bool.or_eq_true, Bool.and_eq_true, beq_iff_eq,
        decide_eq_true_eq] at h ⊢
      rcases h with h | ⟨hxy, hlt⟩
      · simp only [Bool.or_eq_false_iff, Bool.and_eq_false_iff]
        constructor
        · simpa using Nat.le_of_lt h
        · left
          simp
          omega
      · subst hxy
        simp only [Bool.or_eq_false_iff, Bool.and_eq_false_iff]
        exact ⟨by simp, Or.inr (ih ys hlt)⟩

theorem nameLt_asymm (a b : String) (h : nameLt a b = true) :
    nameLt b a = false :=
  bytesLt_asymm _ _ h

theorem insertSorted_sorted (e : DirEntry) : ∀ (l : List DirEntry),
    sortedByName l = true → sortedByName (insertSorted e l) = true := by
  intro l
  induction l with
  | nil => intro _; rfl
  | cons a l ih =>
    intro hs
    rw [insertSorted]
    by_cases hlt : nameLt e.name a.name = true
    · rw [if_pos hlt]
      have ha := nameLt_asymm _ _ hlt
      simp [sortedByName, ha, hs]
    · rw [if_neg hlt]
      have hlt' : nameLt e.name a.name = false := by simpa using hlt
      cases l with
      | nil => simp [insertSorted, sortedByName, hlt']
      | cons b l2 =>
        have hs' : nameLt b.name a.name = false ∧ sortedByName (b :: l2) = true := by
          revert hs
          simp [sortedByName]
        rw [insertSorted]
        by_cases hlt2 : nameLt e.name b.name = true
        · rw [if_pos hlt2]
          have hb := nameLt_asymm _ _ hlt2
          simp [sortedByName, hlt', hb, hs'.2]
        · rw [if_neg hlt2]
          have hins := ih hs'.2
          rw [insertSorted, if_neg hlt2] at hins
          simp [sortedByName, hs'.1, hins]

theorem foldl_insertSorted_sorted :
    ∀ (es acc : List DirEntry), sortedByName acc = true →
      sortedByName (es.foldl (fun acc e => insertSorted e acc) acc) = true := by
  intro es
  induction es with
  | nil => intro acc h; exact h
  | cons e es ih =>
    intro acc h
    rw [List.foldl_cons]
    exact ih _ (insertSorted_sorted e acc h)

theorem sort_paths_sorted (es : List DirEntry) :
    sortedByName (sort_paths es) = true :=
  foldl_insertSorted_sorted es [] rfl

theorem insertSorted_mem (x e : DirEntry) : ∀ (l : List DirEntry),
    x ∈ insertSorted e l ↔ x = e ∨ x ∈ l := by
  intro l
  induction l with
  | nil => simp [insertSorted]
  | cons a l ih =>
    rw [insertSorted]
    by_cases hlt : nameLt e.name a.name = true
    · rw [if_pos hlt]
      simp
    · rw [if_neg hlt]
      simp [ih]
      tauto

theorem sort_paths_mem (x : DirEntry) : ∀ (es : List DirEntry),
    x ∈ sort_paths es ↔ x ∈ es := by
  have key : ∀ (es acc : List DirEntry),
      x ∈ es.foldl (fun acc e => insertSorted e acc) acc
        ↔ x ∈ acc ∨ x ∈ es := by
    intro es
    induction es with
    | nil => intro acc; simp
    | cons e es ih =>
      intro acc
      rw [List.foldl_cons, ih, insertSorted_mem]
      simp
      tauto
  intro es
  rw [sort_paths, key es []]
  simp

theorem foldl_discoverStep (es : List DirEntry) :
    ∀ (acc : DiscoveredFiles),
      (es.foldl discoverStep acc).bead_files
          = acc.bead_files ++ es.filter beadElig ∧
      (es.foldl discoverStep acc).motor_files
          = acc.motor_files ++ es.filter motorElig := by
  induction es with
  | nil => intro acc; simp
  | cons e es ih =>
    intro acc
    rw [List.foldl_cons]
    by_cases hel : eligible e = false
    · have hstep : discoverStep acc e = acc := by rw [discoverStep, if_pos hel]
      rw [hstep]
      have hb : beadElig e = false := by simp [beadElig, hel]
      have hm : motorElig e = false := by simp [motorElig, hel]
      rw [List.filter_cons_of_neg (by simp [hb]),
        List.filter_cons_of_neg (by simp [hm])]
      exact ih acc
    · have hel' : eligible e = true := by simpa using hel
      cases hcl : classify_name e.name with
      | none =>
        have hstep : discoverStep acc e = acc := by
          rw [discoverStep, if_neg (by simp [hel']), hcl]
        rw [hstep]
        rw [List.filter_cons_of_neg (by simp [beadElig, hcl]),
          List.filter_cons_of_neg (by simp [motorElig, hcl])]
        exact ih acc
      | some ft =>
        cases ft with
        | Bead =>
          have hstep : discoverStep acc e
              = { acc with
                  bead_files := acc.bead_files ++ [e],
                  events := acc.events
                    ++ [(acc.bead_files.length + 1, acc.motor_files.length)] } := by
            rw [discoverStep, if_neg (by simp [hel']), hcl]
          rw [hstep]
          rw [List.filter_cons_of_pos (by simp [beadElig, hel', hcl]),
            List.filter_cons_of_neg (by simp [motorElig, hcl])]
          obtain ⟨ihb, ihm⟩ := ih { acc with
                  bead_files := acc.bead_files ++ [e],
                  events := acc.events
                    ++ [(acc.bead_files.length + 1, acc.motor_files.length)] }
          refine ⟨?_, ?_⟩
          · rw [ihb]
            simp
          · rw [ihm]
        | Motor =>
          have hstep : discoverStep acc e
              = { acc with
                  motor_files := acc.motor_files ++ [e],
                  events := acc.events
                    ++ [(acc.bead_files.length, acc.motor_files.length + 1)] } := by
            rw [discoverStep, if_neg (by simp [hel']), hcl]
          rw [hstep]
          rw [List.filter_cons_of_neg (by simp [beadElig, hcl]),
            List.filter_cons_of_pos (by simp [motorElig, hel', hcl])]
          obtain ⟨ihb, ihm⟩ := ih { acc with
                  motor_files := acc.motor_files ++ [e],
                  events := acc.events
                    ++ [(acc.bead_files.length, acc.motor_files.length + 1)] }
          refine ⟨?_, ?_⟩
          · rw [ihb]
          · rw [ihm]
            simp

/-- C8: discovery returns, per category, exactly the direct entries that are
regular files with extension exactly `txt` (case-sensitive), whose name the
classifier assigns to that category by its literal prefix, excluding the
reserved combined-output names; everything else is silently dropped, and
each returned list is sorted by file name under the byte-wise lexicographic
order, deterministically. -/
theorem C8_discovery_filter_sort (es : List DirEntry) :
    (discover_files_with_progress es).bead_files
      = sort_paths (es.filter beadElig) ∧
    (discover_files_with_progress es).motor_files
      = sort_paths (es.filter motorElig) ∧
    sortedByName (discover_files_with_progress es).bead_files = true ∧
    sortedByName (discover_files_with_progress es).motor_files = true ∧
    (∀ x : DirEntry, x ∈ (discover_files_with_progress es).bead_files
      ↔ (x ∈ es ∧ beadElig x = true)) ∧
    (∀ x : DirEntry, x ∈ (discover_files_with_progress es).motor_files
      ↔ (x ∈ es ∧ motorElig x = true)) := by
  obtain ⟨hb, hm⟩ := foldl_discoverStep es ⟨[], [], []⟩
  have hbead : (discover_files_with_progress es).bead_files
      = sort_paths (es.filter beadElig) := by
    rw [discover_files_with_progress]
    dsimp only
    rw [hb]
    rfl
  have hmotor : (discover_files_with_progress es).motor_files
      = sort_paths (es.filter motorElig) := by
    rw [discover_files_with_progress]
    dsimp only
    rw [hm]
    rfl
  refine ⟨hbead, hmotor, ?_, ?_, ?_, ?_⟩
  · rw [hbead]; exact sort_paths_sorted _
  · rw [hmotor]; exact sort_paths_sorted _
  · intro x
    rw [hbead, sort_paths_mem, List.mem_filter]
  · intro x
    rw [hmotor, sort_paths_mem, List.mem_filter]

/-! Progress events of a folder run. -/

theorem combineEvents_map_evProcessed (t : Nat) (ft : FileType) :
    ∀ (ps : List String) (s : Nat),
      (combineEvents t ft s ps).map evProcessed = countUp s ps.length := by
  intro ps
  induction ps with
  | nil => intro s; rfl
  | cons p ps ih =>
    intro s
    simp [combineEvents, countUp, evProcessed, ih]

theorem countUp_append : ∀ (a s b : Nat),
    countUp s (a + b) = countUp s a ++ countUp (s + a) b := by
  intro a
  induction a with
  | zero => intro s b; simp [countUp]
  | succ a ih =>
    intro s b
    rw [show a + 1 + b = (a + b) + 1 by omega, countUp, countUp,
      ih (s + 1) b, show s + 1 + a = s + (a + 1) by omega]
    rfl

theorem combineEvents_mem (t : Nat) (ft : FileType) :
    ∀ (ps : List String) (s : Nat) (ev : ProgressEvent),
      ev ∈ combineEvents t ft s ps →
      ∃ k c, ev = ProgressEvent.Combine k t ft c ∧ s < k ∧ k ≤ s + ps.length := by
  intro ps
  induction ps with
  | nil => intro s ev h; cases h
  | cons p ps ih =>
    intro s ev h
    rw [combineEvents] at h
    rcases List.mem_cons.mp h with he | hm
    · exact ⟨s + 1, p, he, by omega, by simp⟩
    · obtain ⟨k, c, hev, hk1, hk2⟩ := ih (s + 1) ev hm
      refine ⟨k, c, hev, by omega, ?_⟩
      simp only [List.length_cons]
      omega

theorem combineEvents_length (t : Nat) (ft : FileType) :
    ∀ (ps : List String) (s : Nat), (combineEvents t ft s ps).length = ps.length := by
  intro ps
  induction ps with
  | nil => intro s; rfl
  | cons p ps ih => intro s; simp [combineEvents, ih]

/-- The events of a folder run on a listable directory: all discovery events
first, then one combine event per processed file of the bead group and then
of the motor group, with a shared running counter and the total fixed at the
sum of the discovered counts; under reliable output devices the processed
lists are exactly the discovered files of each category. -/
theorem folder_events_spec (folder : String) (es : List DirEntry)
    (cfgB cfgM : OutConfig) :
    ∃ bp mp : List String,
      (combine_folder_with_progress folder (MFolder.entries es) cfgB
          cfgM).events
        = (discover_files_with_progress es).events.map
            (fun p => ProgressEvent.Discovery p.1 p.2)
          ++ combineEvents
              ((discover_files_with_progress es).bead_files.length
                + (discover_files_with_progress es).motor_files.length)
              FileType.Bead 0 bp
          ++ combineEvents
              ((discover_files_with_progress es).bead_files.length
                + (discover_files_with_progress es).motor_files.length)
              FileType.Motor bp.length mp ∧
      bp.length ≤ (discover_files_with_progress es).bead_files.length ∧
      mp.length ≤ (discover_files_with_progress es).motor_files.length ∧
      (cfgB.createFails = false → cfgB.writeBudget = none →
       cfgM.createFails = false → cfgM.writeBudget = none →
       bp = (discover_files_with_progress es).bead_files.map
           (fun e => (entryFile folder e).path) ∧
       mp = (discover_files_with_progress es).motor_files.map
           (fun e => (entryFile folder e).path)) := by
  refine ⟨_, _, rfl, ?_, ?_, ?_⟩
  · by_cases hnb : (discover_files_with_progress es).bead_files.length = 0
    · rw [if_pos hnb]
      simp
    · rw [if_neg hnb]
      obtain ⟨n, hn, _hle⟩ := (combine_group_abort_facts cfgB FileType.Bead
        ((discover_files_with_progress es).bead_files.map (entryFile folder))
        (folder ++ "/" ++ BEAD_OUTPUT)).2
      simp only [Option.map_some', Option.getD_some]
      rw [hn]
      simp only [List.length_map, List.length_take]
      omega
  · by_cases hnm : (discover_files_with_progress es).motor_files.length = 0
    · rw [if_pos hnm]
      simp
    · rw [if_neg hnm]
      obtain ⟨n, hn, _hle⟩ := (combine_group_abort_facts cfgM FileType.Motor
        ((discover_files_with_progress es).motor_files.map (entryFile folder))
        (folder ++ "/" ++ MOTOR_OUTPUT)).2
      simp only [Option.map_some', Option.getD_some]
      rw [hn]
      simp only [List.length_map, List.length_take]
      omega
  · intro hcB hbB hcM hbM
    constructor
    · by_cases hnb : (discover_files_with_progress es).bead_files.length = 0
      · rw [if_pos hnb]
        rw [List.length_eq_zero.mp hnb]
        rfl
      · rw [if_neg hnb]
        simp only [Option.map_some', Option.getD_some]
        rw [combine_group_run cfgB hcB hbB]
        simp [List.map_map]
    · by_cases hnm : (discover_files_with_progress es).motor_files.length = 0
      · rw [if_pos hnm]
        rw [List.length_eq_zero.mp hnm]
        rfl
      · rw [if_neg hnm]
        simp only [Option.map_some', Option.getD_some]
        rw [combine_group_run cfgM hcM hbM]
        simp [List.map_map]

/-- C5: a folder run emits zero or more Discovery events followed by exactly
one Combine event per file as it finishes processing (the bead group first,
then the motor group), each carrying the running processed count and a total
fixed before combining starts at the sum of both categories' discovered file
counts; under reliable output devices there is exactly one Combine event per
discovered file, in order. -/
theorem C5_folder_event_order (folder : String) (es : List DirEntry)
    (cfgB cfgM : OutConfig) :
    ∃ bp mp : List String,
      (combine_folder_with_progress folder (MFolder.entries es) cfgB
          cfgM).events
        = (discover_files_with_progress es).events.map
            (fun p => ProgressEvent.Discovery p.1 p.2)
          ++ combineEvents
              ((discover_files_with_progress es).bead_files.length
                + (discover_files_with_progress es).motor_files.length)
              FileType.Bead 0 bp
          ++ combineEvents
              ((discover_files_with_progress es).bead_files.length
                + (discover_files_with_progress es).motor_files.length)
              FileType.Motor bp.length mp ∧
      bp.length ≤ (discover_files_with_progress es).bead_files.length ∧
      mp.length ≤ (discover_files_with_progress es).motor_files.length ∧
      (cfgB.createFails = false → cfgB.writeBudget = none →
       cfgM.createFails = false → cfgM.writeBudget = none →
       bp = (discover_files_with_progress es).bead_files.map
           (fun e => (entryFile folder e).path) ∧
       mp = (discover_files_with_progress es).motor_files.map
           (fun e => (entryFile folder e).path) ∧
       bp.length + mp.length
         = (discover_files_with_progress es).bead_files.length
           + (discover_files_with_progress es).motor_files.length) := by
  obtain ⟨bp, mp, hev, hlb, hlm, hnf⟩ := folder_events_spec folder es cfgB cfgM
  refine ⟨bp, mp, hev, hlb, hlm, ?_⟩
  intro hcB hbB hcM hbM
  obtain ⟨hbp, hmp⟩ := hnf hcB hbB hcM hbM
  refine ⟨hbp, hmp, ?_⟩
  rw [hbp, hmp]
  simp

theorem C5_witness :
    (combine_folder_with_progress "dir"
        (MFolder.entries
          [⟨"Bead Positions 1.txt", true, false, [35, 72, 10, 49, 10], none⟩,
           ⟨"Motor Positions 1.txt", true, false, [35, 77, 10, 50, 10], none⟩])
        ⟨false, none⟩ ⟨false, none⟩).events
      = [ProgressEvent.Discovery 1 0, ProgressEvent.Discovery 1 1,
         ProgressEvent.Combine 1 2 FileType.Bead "dir/Bead Positions 1.txt",
         ProgressEvent.Combine 2 2 FileType.Motor "dir/Motor Positions 1.txt"] := by
  obtain ⟨bp, mp, hev, _, _, hnf⟩ := C5_folder_event_order "dir"
    [⟨"Bead Positions 1.txt", true, false, [35, 72, 10, 49, 10], none⟩,
     ⟨"Motor Positions 1.txt", true, false, [35, 77, 10, 50, 10], none⟩]
    ⟨false, none⟩ ⟨false, none⟩
  obtain ⟨hbp, hmp, _⟩ := hnf rfl rfl rfl rfl
  rw [hev, hbp, hmp]
  decide

/-- C10: each Combine event increments the running count by exactly one,
starting at 1, and the count never exceeds the fixed total; a state that
aborted absorbs all remaining files, the file during whose processing the
abort happened gets no Combine event, and a concrete aborted run ends with
fewer Combine events than its total. -/
theorem C10_progress_counts :
    (∀ (folder : String) (es : List DirEntry) (cfgB cfgM : OutConfig),
      ∃ n, n ≤ (discover_files_with_progress es).bead_files.length
             + (discover_files_with_progress es).motor_files.length ∧
        (combine_folder_with_progress folder (MFolder.entries es) cfgB
            cfgM).events.map evProcessed
          = (discover_files_with_progress es).events.map (fun _ => 0)
            ++ countUp 0 n ∧
        (∀ ev ∈ (combine_folder_with_progress folder (MFolder.entries es)
            cfgB cfgM).events,
          ∀ (p t2 : Nat) (ft : FileType) (c : String),
            ev = ProgressEvent.Combine p t2 ft c →
            t2 = (discover_files_with_progress es).bead_files.length
                + (discover_files_with_progress es).motor_files.length
              ∧ 1 ≤ p ∧ p ≤ t2)) ∧
    (∀ (cfg : OutConfig) (oP : String) (st : GState) (f : MFile),
      st.aborted = true → processFile cfg oP st f = st) ∧
    (∀ (cfg : OutConfig) (oP : String) (st : GState) (f : MFile),
      st.aborted = false → (processFile cfg oP st f).aborted = true →
        (processFile cfg oP st f).processed = st.processed) ∧
    ((combine_folder_with_progress "d"
        (MFolder.entries
          [⟨"Bead Positions 1.txt", true, false, [35, 72, 10], none⟩])
        ⟨true, none⟩ ⟨false, none⟩).events
      = [ProgressEvent.Discovery 1 0] ∧
     (combine_folder_with_progress "d"
        (MFolder.entries
          [⟨"Bead Positions 1.txt", true, false, [35, 72, 10], none⟩])
        ⟨true, none⟩ ⟨false, none⟩).report.bead_files = 1) := by
  refine ⟨?_, processFile_absorb, ?_, by decide, by decide⟩
  · intro folder es cfgB cfgM
    obtain ⟨bp, mp, hev, hlb, hlm, _⟩ := folder_events_spec folder es cfgB cfgM
    refine ⟨bp.length + mp.length, by omega, ?_, ?_⟩
    · rw [hev]
      simp only [List.map_append, List.map_map]
      rw [combineEvents_map_evProcessed, combineEvents_map_evProcessed,
        countUp_append bp.length 0 mp.length]
      simp only [List.append_assoc, Nat.zero_add]
      congr 1
    · intro ev hmem p t2 ft c hev2
      subst hev2
      rw [hev] at hmem
      rcases List.mem_append.mp hmem with hm1 | hm3
      · rcases List.mem_append.mp hm1 with hd | hm2
        · obtain ⟨q, _, hq⟩ := List.mem_map.mp hd
          simp at hq
        · obtain ⟨k, c2, hev3, hk1, hk2⟩ := combineEvents_mem _ _ bp 0 _ hm2
          rw [ProgressEvent.Combine.injEq] at hev3
          obtain ⟨hpk, ht2, _, _⟩ := hev3
          subst hpk
          subst ht2
          refine ⟨rfl, by omega, by omega⟩
      · obtain ⟨k, c2, hev3, hk1, hk2⟩ := combineEvents_mem _ _ mp bp.length _ hm3
        rw [ProgressEvent.Combine.injEq] at hev3
        obtain ⟨hpk, ht2, _, _⟩ := hev3
        subst hpk
        subst ht2
        refine ⟨rfl, by omega, by omega⟩
  · intro cfg oP st f hab hab'
    rcases (processFile_facts cfg oP st f).2 with ⟨_hp, habeq⟩ | ⟨hp, _⟩
    · rw [hab] at habeq
      rw [habeq] at hab'
      cases hab'
    · exact hp

theorem C10_witness :
    processFile ⟨false, none⟩ "out.txt"
        ⟨initSummary FileType.Bead 1, none, 0, none, [], false, [], true⟩ wFileB
      = ⟨initSummary FileType.Bead 1, none, 0, none, [], false, [], true⟩ := by
  have h := C10_progress_counts
  exact h.2.1 ⟨false, none⟩ "out.txt"
    ⟨initSummary FileType.Bead 1, none, 0, none, [], false, [], true⟩ wFileB rfl

end MagMerge
